import Mathlib

/-!
Verification development for a personal-finance tracker (Flask +
SQLAlchemy).  The Python models and route handlers are shallowly
embedded: money columns (`Numeric(12, 2)`) are modelled as exact
rationals, calendar dates as year/month/day triples ordered
lexicographically, and each state-mutating route handler as a function
from an explicit application state to `Except` of a new state.  A
validation failure or a 404 produces `.error`, matching the fact that
the handlers run their WTForms validation before any mutation and only
`db.session.commit()` at the end, so a failed request leaves the stored
state unchanged.  Primary-key columns are modelled as `Nat` ids;
`Query.get(pk)` together with an in-place mutation is modelled by
mapping the mutation over every row whose id matches (with primary-key
uniqueness these coincide).  Autoincremented ids are modelled as
`max + 1`.
-/

namespace Emporium

/-- Transaction direction, from `models.TransactionType`. -/
inductive TransactionType where
  | income
  | expense
deriving DecidableEq

/-- Account kinds, from `models.AccountType`. -/
inductive AccountType where
  | checking
  | savings
  | credit_card
  | cash
  | wallet
  | investment
  | loan
deriving DecidableEq

/-- A calendar date (`datetime.date`).  Python compares dates
lexicographically by (year, month, day); `CalDate.le` mirrors that. -/
structure CalDate where
  year : Int
  month : Nat
  day : Nat
deriving DecidableEq

/-- Lexicographic order on dates, as used by `Transaction.date >= d` /
`<= d` filters and the `DateNotFuture` validator. -/
def CalDate.le (a b : CalDate) : Prop :=
  a.year < b.year ∨ (a.year = b.year ∧
    (a.month < b.month ∨ (a.month = b.month ∧ a.day ≤ b.day)))

instance (a b : CalDate) : Decidable (CalDate.le a b) := by
  unfold CalDate.le; infer_instance

/-- `models.Account` (timestamp columns omitted: no claim mentions them). -/
structure Account where
  id : Nat
  name : String
  type : AccountType
  initial_balance : ℚ
  current_balance : ℚ
  currency : String
  is_active : Bool
  user_id : Nat
deriving DecidableEq

/-- `models.Category`.  `user_id` is nullable (system categories). -/
structure Category where
  id : Nat
  name : String
  type : TransactionType
  icon : String
  color : String
  user_id : Option Nat
  parent_id : Option Nat
  is_system : Bool
  is_active : Bool
deriving DecidableEq

/-- `models.Transaction` (sync columns omitted: reserved and unused). -/
structure Transaction where
  id : Nat
  amount : ℚ
  type : TransactionType
  date : CalDate
  description : String
  user_id : Nat
  account_id : Nat
  category_id : Nat
deriving DecidableEq

/-- `models.Transfer`. -/
structure Transfer where
  id : Nat
  amount : ℚ
  date : CalDate
  description : String
  user_id : Nat
  from_account_id : Nat
  to_account_id : Nat
deriving DecidableEq

/-- `models.Budget`; `month` is the integer YYYYMM key. -/
structure Budget where
  id : Nat
  amount : ℚ
  month : Nat
  user_id : Nat
  category_id : Nat
deriving DecidableEq

/-- The whole persisted state: the five owner-scoped record sets. -/
structure AppState where
  accounts : List Account
  categories : List Category
  transactions : List Transaction
  transfers : List Transfer
  budgets : List Budget
deriving DecidableEq

/-- Typed failure of an operation: WTForms/flash validation failures,
the duplicate-budget rejection, `first_or_404`, and a Python
`TypeError` (see `editAccount`). -/
inductive OpError where
  | validation
  | duplicate
  | notFound
  | conflict
  | typeError
deriving DecidableEq

/-- Autoincrement primary key: one more than the largest existing id. -/
def nextId (ids : List Nat) : Nat := ids.foldr max 0 + 1

/-- `Query.get(aid)` followed by an in-place mutation: update every row
whose id matches (`id` is the primary key, so at most one row does). -/
def updateById (aid : Nat) (f : Account → Account) (l : List Account) : List Account :=
  l.map fun a => if a.id = aid then f a else a

/-- Mutate the first row matching `p` (the row returned by
`filter_by(...).first()`), leaving the rest unchanged. -/
def modifyFirst (p : α → Bool) (f : α → α) : List α → List α
  | [] => []
  | x :: xs => if p x then f x :: xs else x :: modifyFirst p f xs

/-- Delete the first row matching `p` (`db.session.delete` of the row
returned by `filter_by(...).first_or_404()`). -/
def removeFirst (p : α → Bool) : List α → List α
  | [] => []
  | x :: xs => if p x then xs else x :: removeFirst p xs

/-- Keep the state on `.error` (the handler only flashes a message and
re-renders; nothing was committed). -/
def applyExcept (s : AppState) (r : Except OpError AppState) : AppState :=
  match r with
  | .ok s2 => s2
  | .error _ => s

/-- `Account.update_balance` from models.py: income credits, expense
debits the cached running total. -/
def Account.update_balance (a : Account) (t : TransactionType) (amount : ℚ) : Account :=
  match t with
  | .income => { a with current_balance := a.current_balance + amount }
  | .expense => { a with current_balance := a.current_balance - amount }

/-- The reversal applied by the delete/edit handlers: debit back an
income, credit back an expense. -/
def Account.reverse_balance (a : Account) (t : TransactionType) (amount : ℚ) : Account :=
  match t with
  | .income => { a with current_balance := a.current_balance - amount }
  | .expense => { a with current_balance := a.current_balance + amount }

/-- The transaction form's account choices: the user's active accounts
(`Account.query.filter_by(user_id=..., is_active=True)`). -/
def activeAccountChoice (s : AppState) (uid aid : Nat) : Prop :=
  ∃ a ∈ s.accounts, a.user_id = uid ∧ a.is_active = true ∧ a.id = aid

instance (s : AppState) (uid aid : Nat) : Decidable (activeAccountChoice s uid aid) := by
  unfold activeAccountChoice; infer_instance

/-- Category choices set by `TransactionForm.set_category_choices`:
active categories of the submitted type (note: not user-filtered in the
source). -/
def createCategoryChoice (s : AppState) (ttype : TransactionType) (cid : Nat) : Prop :=
  ∃ c ∈ s.categories, c.type = ttype ∧ c.is_active = true ∧ c.id = cid

instance (s : AppState) (ttype : TransactionType) (cid : Nat) :
    Decidable (createCategoryChoice s ttype cid) := by
  unfold createCategoryChoice; infer_instance

/-- Category choices used by the transaction edit route: the user's
active categories of any type (no type filter in the source). -/
def editCategoryChoice (s : AppState) (uid cid : Nat) : Prop :=
  ∃ c ∈ s.categories, c.user_id = some uid ∧ c.is_active = true ∧ c.id = cid

instance (s : AppState) (uid cid : Nat) : Decidable (editCategoryChoice s uid cid) := by
  unfold editCategoryChoice; infer_instance

/-- Row predicate for `Transaction.query.filter_by(id=tid, user_id=uid)`. -/
def txnKey (uid tid : Nat) (t : Transaction) : Bool :=
  decide (t.id = tid ∧ t.user_id = uid)

/-- Row predicate for `Transfer.query.filter_by(id=trid, user_id=uid)`. -/
def transferKey (uid trid : Nat) (tr : Transfer) : Bool :=
  decide (tr.id = trid ∧ tr.user_id = uid)

/-- `transactions.create`: validate (positive amount, date not in the
future, account and category from the form choices), then insert the
transaction and apply `update_balance` to the chosen account. -/
def createTransaction (today : CalDate) (uid : Nat) (amount : ℚ) (ttype : TransactionType)
    (d : CalDate) (desc : String) (aid cid : Nat) (s : AppState) : Except OpError AppState :=
  if ¬ 0 < amount then .error .validation
  else if ¬ CalDate.le d today then .error .validation
  else if ¬ activeAccountChoice s uid aid then .error .validation
  else if ¬ createCategoryChoice s ttype cid then .error .validation
  else .ok { s with
    transactions :=
      { id := nextId (s.transactions.map (·.id)), amount := amount, type := ttype,
        date := d, description := desc, user_id := uid, account_id := aid,
        category_id := cid } :: s.transactions,
    accounts := updateById aid (fun a => a.update_balance ttype amount) s.accounts }

/-- `transactions.edit`: look up the transaction, validate, overwrite
its fields, then either reverse-old/apply-new on two different accounts
or reverse-then-apply on the single shared account. -/
def editTransaction (today : CalDate) (uid tid : Nat) (amount : ℚ) (ttype : TransactionType)
    (d : CalDate) (desc : String) (aid cid : Nat) (s : AppState) : Except OpError AppState :=
  match s.transactions.find? (txnKey uid tid) with
  | none => .error .notFound
  | some old =>
    if ¬ 0 < amount then .error .validation
    else if ¬ CalDate.le d today then .error .validation
    else if ¬ activeAccountChoice s uid aid then .error .validation
    else if ¬ editCategoryChoice s uid cid then .error .validation
    else .ok { s with
      transactions :=
        modifyFirst (txnKey uid tid)
          (fun t =>
            { t with
              amount := amount, type := ttype, date := d,
              description := desc, account_id := aid, category_id := cid })
          s.transactions,
      accounts :=
        if old.account_id ≠ aid then
          updateById aid (fun a => a.update_balance ttype amount)
            (updateById old.account_id (fun a => a.reverse_balance old.type old.amount) s.accounts)
        else
          updateById aid
            (fun a => (a.reverse_balance old.type old.amount).update_balance ttype amount)
            s.accounts }

/-- `transactions.delete`: reverse the balance effect on the owning
account (if it still exists), then delete the row. -/
def deleteTransaction (uid tid : Nat) (s : AppState) : Except OpError AppState :=
  match s.transactions.find? (txnKey uid tid) with
  | none => .error .notFound
  | some t =>
    .ok { s with
      accounts := updateById t.account_id (fun a => a.reverse_balance t.type t.amount) s.accounts,
      transactions := removeFirst (txnKey uid tid) s.transactions }

/-- `transfers.create`: validate (positive amount, date not future,
both accounts among the user's active accounts, distinct accounts),
reject when the source balance is below the amount, then debit the
source, credit the destination and insert the transfer.  The source
compares the balances after `float(...)` conversion; the comparison is
modelled exactly. -/
def createTransfer (today : CalDate) (uid : Nat) (amount : ℚ) (d : CalDate) (desc : String)
    (fromId toId : Nat) (s : AppState) : Except OpError AppState :=
  if ¬ 0 < amount then .error .validation
  else if ¬ CalDate.le d today then .error .validation
  else if ¬ activeAccountChoice s uid fromId then .error .validation
  else if ¬ activeAccountChoice s uid toId then .error .validation
  else if fromId = toId then .error .validation
  else if s.accounts.find? (fun a => decide (a.id = fromId)) = none then .error .validation
  else if s.accounts.find? (fun a => decide (a.id = toId)) = none then .error .validation
  else if (s.accounts.find? (fun a => decide (a.id = fromId))).any
      (fun a => decide (a.current_balance < amount)) then .error .validation
  else .ok { s with
        transfers :=
          { id := nextId (s.transfers.map (·.id)), amount := amount, date := d,
            description := desc, user_id := uid, from_account_id := fromId,
            to_account_id := toId } :: s.transfers,
        accounts := updateById toId (fun a => { a with current_balance := a.current_balance + amount })
          (updateById fromId (fun a => { a with current_balance := a.current_balance - amount })
            s.accounts) }

/-- `transfers.delete`: credit the source back, debit the destination
back, delete the row. -/
def deleteTransfer (uid trid : Nat) (s : AppState) : Except OpError AppState :=
  match s.transfers.find? (transferKey uid trid) with
  | none => .error .notFound
  | some tr =>
    .ok { s with
      accounts := updateById tr.to_account_id
          (fun a => { a with current_balance := a.current_balance - tr.amount })
        (updateById tr.from_account_id
          (fun a => { a with current_balance := a.current_balance + tr.amount }) s.accounts),
      transfers := removeFirst (transferKey uid trid) s.transfers }

/-- One ledger-mutating request. -/
inductive LedgerOp where
  | createTxn (uid : Nat) (amount : ℚ) (ttype : TransactionType) (d : CalDate)
      (desc : String) (aid cid : Nat)
  | editTxn (uid tid : Nat) (amount : ℚ) (ttype : TransactionType) (d : CalDate)
      (desc : String) (aid cid : Nat)
  | deleteTxn (uid tid : Nat)
  | createTr (uid : Nat) (amount : ℚ) (d : CalDate) (desc : String) (fromId toId : Nat)
  | deleteTr (uid trid : Nat)

/-- Dispatch one request against the state. -/
def runLedgerOp (today : CalDate) (s : AppState) : LedgerOp → Except OpError AppState
  | .createTxn uid amount ttype d desc aid cid =>
      createTransaction today uid amount ttype d desc aid cid s
  | .editTxn uid tid amount ttype d desc aid cid =>
      editTransaction today uid tid amount ttype d desc aid cid s
  | .deleteTxn uid tid => deleteTransaction uid tid s
  | .createTr uid amount d desc fromId toId =>
      createTransfer today uid amount d desc fromId toId s
  | .deleteTr uid trid => deleteTransfer uid trid s

/-- A failed request leaves the stored state unchanged. -/
def applyLedgerOp (today : CalDate) (s : AppState) (op : LedgerOp) : AppState :=
  applyExcept s (runLedgerOp today s op)

/-- A whole sequence of ledger requests. -/
def applyLedgerOps (today : CalDate) (s : AppState) (ops : List LedgerOp) : AppState :=
  ops.foldl (applyLedgerOp today) s

/-- Income credited to account `aid` by the remaining transactions. -/
def incomeSum (aid : Nat) (ts : List Transaction) : ℚ :=
  ((ts.filter fun t => decide (t.account_id = aid ∧ t.type = .income)).map (·.amount)).sum

/-- Expense debited from account `aid` by the remaining transactions. -/
def expenseSum (aid : Nat) (ts : List Transaction) : ℚ :=
  ((ts.filter fun t => decide (t.account_id = aid ∧ t.type = .expense)).map (·.amount)).sum

/-- Total moved out of account `aid` by remaining transfers. -/
def outgoingSum (aid : Nat) (trs : List Transfer) : ℚ :=
  ((trs.filter fun tr => decide (tr.from_account_id = aid)).map (·.amount)).sum

/-- Total moved into account `aid` by remaining transfers. -/
def incomingSum (aid : Nat) (trs : List Transfer) : ℚ :=
  ((trs.filter fun tr => decide (tr.to_account_id = aid)).map (·.amount)).sum

/-- The balance-derivability invariant of the spec: every account's
cached `current_balance` equals `initial_balance + Σincome − Σexpense −
Σoutgoing + Σincoming` over the ledger entries that still exist. -/
def BalanceInvariant (s : AppState) : Prop :=
  ∀ a ∈ s.accounts,
    a.current_balance =
      a.initial_balance + incomeSum a.id s.transactions - expenseSum a.id s.transactions
        - outgoingSum a.id s.transfers + incomingSum a.id s.transfers

instance (s : AppState) : Decidable (BalanceInvariant s) := by
  unfold BalanceInvariant; infer_instance

/-! ### Budgets -/

/-- The `ValidMonth` form validator: a 6-digit YYYYMM integer with year
2000–2100 and month-of-year 1–12 (the year bound already forces six
digits). -/
def validMonth (m : Nat) : Prop :=
  2000 ≤ m / 100 ∧ m / 100 ≤ 2100 ∧ 1 ≤ m % 100 ∧ m % 100 ≤ 12

instance (m : Nat) : Decidable (validMonth m) := by
  unfold validMonth; infer_instance

/-- `BudgetForm.category_id` choices: the user's active expense-type
categories. -/
def budgetCategoryChoice (s : AppState) (uid cid : Nat) : Prop :=
  ∃ c ∈ s.categories, c.user_id = some uid ∧ c.type = .expense ∧ c.is_active = true ∧ c.id = cid

instance (s : AppState) (uid cid : Nat) : Decidable (budgetCategoryChoice s uid cid) := by
  unfold budgetCategoryChoice; infer_instance

/-- A budget already stored for the same (owner, category, month). -/
def budgetTaken (uid cid month : Nat) (bs : List Budget) : Prop :=
  ∃ b ∈ bs, b.user_id = uid ∧ b.category_id = cid ∧ b.month = month

instance (uid cid month : Nat) (bs : List Budget) : Decidable (budgetTaken uid cid month bs) := by
  unfold budgetTaken; infer_instance

/-- `budgets.create`: form validation, then the explicit
existing-budget check (rejected with a flash, modelled as
`.error .duplicate`), then insert. -/
def createBudget (uid cid : Nat) (amount : ℚ) (month : Nat) (s : AppState) :
    Except OpError AppState :=
  if ¬ budgetCategoryChoice s uid cid then .error .validation
  else if ¬ 0 < amount then .error .validation
  else if ¬ validMonth month then .error .validation
  else if budgetTaken uid cid month s.budgets then .error .duplicate
  else .ok { s with
    budgets :=
      { id := nextId (s.budgets.map (·.id)), amount := amount, month := month,
        user_id := uid, category_id := cid } :: s.budgets }

/-- At most one budget per (owner, category, month) triple. -/
def BudgetUnique (bs : List Budget) : Prop :=
  bs.Pairwise fun b1 b2 =>
    ¬ (b1.user_id = b2.user_id ∧ b1.category_id = b2.category_id ∧ b1.month = b2.month)

instance (bs : List Budget) : Decidable (BudgetUnique bs) := by
  unfold BudgetUnique; infer_instance

/-- Python's Gregorian month lengths (`datetime.date` arithmetic used to
compute `prev_month_end`). -/
def isLeapYear (y : Int) : Bool :=
  (y % 4 == 0 && y % 100 != 0) || y % 400 == 0

/-- Number of days in a month, leap years included. -/
def daysInMonth (y : Int) (m : Nat) : Nat :=
  if m = 2 then (if isLeapYear y then 29 else 28)
  else if m = 4 ∨ m = 6 ∨ m = 9 ∨ m = 11 then 30
  else 31

/-- The filter `month_start <= t.date <= month_end` for the calendar
month (y, m): `month_start = date(y, m, 1)` and `month_end` is the last
day of that month. -/
def inMonth (y : Int) (m : Nat) (d : CalDate) : Prop :=
  CalDate.le { year := y, month := m, day := 1 } d ∧
    CalDate.le d { year := y, month := m, day := daysInMonth y m }

instance (y : Int) (m : Nat) (d : CalDate) : Decidable (inMonth y m d) := by
  unfold inMonth; infer_instance

/-- The month immediately preceding a YYYYMM key, exactly as
`quick_setup` computes it (January rolls back to December of the
previous year).  The Python slices the 6-digit string; `/ 100` and
`% 100` agree with that on well-formed keys. -/
def prevMonthOf (month : Nat) : Int × Nat :=
  let year : Int := (month / 100 : Nat)
  let mn := month % 100
  if mn = 1 then (year - 1, 12) else (year, mn - 1)

/-- The grouped sum of `quick_setup`'s spending query for one category:
the user's expense transactions in the given calendar month carrying
that category. -/
def spentInMonth (uid : Nat) (y : Int) (m : Nat) (cid : Nat) (ts : List Transaction) : ℚ :=
  ((ts.filter fun t =>
      decide (t.user_id = uid ∧ t.type = .expense ∧ t.category_id = cid ∧ inMonth y m t.date)).map
    (·.amount)).sum

/-- One iteration of `quick_setup`'s loop over the spending rows: an
active category with positive prior-month spend and no existing budget
for the target month gets a budget at `spent * 0.9`; otherwise nothing
is added.  (The join only produces categories with at least one
matching transaction; those have `spent = 0` here and are equally
skipped by the `spent > 0` test.) -/
def quickSetupStep (uid month : Nat) (y : Int) (m : Nat) (ts : List Transaction)
    (bs : List Budget) (c : Category) : List Budget :=
  if c.is_active = true ∧ 0 < spentInMonth uid y m c.id ts ∧
      ¬ budgetTaken uid c.id month bs then
    bs ++ [{ id := nextId (bs.map (·.id)),
             amount := spentInMonth uid y m c.id ts * (9 / 10 : ℚ),
             month := month, user_id := uid, category_id := c.id }]
  else bs

/-- `budgets.quick_setup`: create budgets for the target month from the
previous month's per-category expense spend, at 90% of that spend,
skipping categories that already have a budget for the target month.
(Pending inserts are visible to the later existence checks through
SQLAlchemy autoflush, hence the accumulator-based check.) -/
def quick_setup (uid month : Nat) (s : AppState) : AppState :=
  let pm := prevMonthOf month
  { s with
    budgets :=
      s.categories.foldl (quickSetupStep uid month pm.1 pm.2 s.transactions) s.budgets }

/-! ### Categories -/

/-- The rows of `cat.subcategories`: every category whose `parent_id`
points at `cid`. -/
def childrenOf (cats : List Category) (cid : Nat) : List Category :=
  cats.filter fun c => decide (c.parent_id = some cid)

/-- The recursive `is_self_or_descendant` helper of `categories.edit`:
does `target` lie in the subtree rooted at `cat`?  The Python recursion
walks `cat.subcategories`; Lean needs a termination measure, so the
recursion carries fuel.  `cats.length + 1` fuel over-approximates the
depth of any acyclic forest; on exhausted fuel (only reachable on
cyclic data, where the Python diverges) it conservatively answers
`true`.  No theorem below depends on the fuel branch. -/
def isSelfOrDescendant (cats : List Category) : Nat → Category → Nat → Bool
  | 0, _, _ => true
  | fuel + 1, cat, target =>
    cat.id == target ||
      (childrenOf cats cat.id).any fun sub => isSelfOrDescendant cats fuel sub target

/-- `CategoryForm.parent_id` choices on the create page: `0` (top
level) or one of the user's active top-level categories. -/
def createParentChoice (s : AppState) (uid pc : Nat) : Prop :=
  pc = 0 ∨ ∃ c ∈ s.categories,
    c.user_id = some uid ∧ c.parent_id = none ∧ c.is_active = true ∧ c.id = pc

instance (s : AppState) (uid pc : Nat) : Decidable (createParentChoice s uid pc) := by
  unfold createParentChoice; infer_instance

/-- `CategoryForm.parent_id` choices on the edit page: `0`, or an
active top-level category of the user that is neither the edited
category itself nor an ancestor of it (`is_self_or_descendant`). -/
def editParentChoice (s : AppState) (uid catId pc : Nat) : Prop :=
  pc = 0 ∨ ∃ c ∈ s.categories,
    c.user_id = some uid ∧ c.is_active = true ∧ c.parent_id = none ∧
      isSelfOrDescendant s.categories (s.categories.length + 1) c catId = false ∧
      c.id ≠ catId ∧ c.id = pc

instance (s : AppState) (uid catId pc : Nat) : Decidable (editParentChoice s uid catId pc) := by
  unfold editParentChoice; infer_instance

/-- `categories.create`: validate the parent choice, insert a fresh
active, non-system category owned by the user. -/
def createCategory (uid : Nat) (nm : String) (ttype : TransactionType)
    (icon color : String) (pc : Nat) (s : AppState) : Except OpError AppState :=
  if ¬ createParentChoice s uid pc then .error .validation
  else .ok { s with
    categories :=
      { id := nextId (s.categories.map (·.id)), name := nm, type := ttype, icon := icon,
        color := color, user_id := some uid,
        parent_id := if pc ≠ 0 then some pc else none,
        is_system := false, is_active := true } :: s.categories }

/-- Row predicate for `Category.query.filter_by(id=catId, user_id=uid)`. -/
def catKey (uid catId : Nat) (c : Category) : Bool :=
  decide (c.id = catId ∧ c.user_id = some uid)

/-- `categories.edit` (including reparenting): look up the category,
refuse system categories, validate the parent choice, overwrite the
editable fields. -/
def editCategory (uid catId : Nat) (nm : String) (ttype : TransactionType)
    (icon color : String) (pc : Nat) (s : AppState) : Except OpError AppState :=
  match s.categories.find? (catKey uid catId) with
  | none => .error .notFound
  | some cat =>
    if cat.is_system = true then .error .conflict
    else if ¬ editParentChoice s uid catId pc then .error .validation
    else .ok { s with
      categories :=
        modifyFirst (catKey uid catId)
          (fun c =>
            { c with
              name := nm, type := ttype, icon := icon, color := color,
              parent_id := if pc ≠ 0 then some pc else none })
          s.categories }

/-- One category-tree request. -/
inductive CategoryOp where
  | create (uid : Nat) (nm : String) (ttype : TransactionType) (icon color : String) (pc : Nat)
  | edit (uid catId : Nat) (nm : String) (ttype : TransactionType) (icon color : String) (pc : Nat)

/-- Apply one category request; failures leave the state unchanged. -/
def applyCategoryOp (s : AppState) : CategoryOp → AppState
  | .create uid nm t i c pc => applyExcept s (createCategory uid nm t i c pc s)
  | .edit uid catId nm t i c pc => applyExcept s (editCategory uid catId nm t i c pc s)

/-- Apply a sequence of category requests. -/
def applyCategoryOps (s : AppState) (ops : List CategoryOp) : AppState :=
  ops.foldl applyCategoryOp s

/-- One step up the tree: some stored category has id `child` and
parent `par`. -/
def ParentStep (cats : List Category) (child par : Nat) : Prop :=
  ∃ c ∈ cats, c.id = child ∧ c.parent_id = some par

/-- No category is its own (proper) ancestor: the parent relation has
no cycle through any id. -/
def Acyclic (cats : List Category) : Prop :=
  ∀ n, ¬ Relation.TransGen (ParentStep cats) n n

/-- Integrity the database schema guarantees for the category table:
primary-key uniqueness, nonzero autoincremented ids (`0` is the form's
"no parent" sentinel), and the `parent_id` foreign key. -/
def CatWF (cats : List Category) : Prop :=
  (cats.map (·.id)).Nodup ∧ (∀ c ∈ cats, c.id ≠ 0) ∧
    ∀ c ∈ cats, ∀ p, c.parent_id = some p → ∃ c2 ∈ cats, c2.id = p

instance (o : Option Nat) (P : Nat → Prop) [DecidablePred P] :
    Decidable (∀ p, o = some p → P p) :=
  match o with
  | none => isTrue fun _ h => by cases h
  | some x =>
    if h : P x then isTrue fun p hp => by injection hp with e; exact e ▸ h
    else isFalse fun hall => h (hall x rfl)

instance (cats : List Category) : Decidable (CatWF cats) := by
  unfold CatWF
  infer_instance

/-! ### Reports -/

/-- Date-range filter of the category-breakdown report. -/
def inRange (dfrom dto : CalDate) (d : CalDate) : Prop :=
  CalDate.le dfrom d ∧ CalDate.le d dto

instance (dfrom dto d : CalDate) : Decidable (inRange dfrom dto d) := by
  unfold inRange; infer_instance

/-- Join/filter condition of `reports.spending_by_category` for one
category row. -/
def breakdownMatches (uid : Nat) (dfrom dto : CalDate) (cid : Nat) (t : Transaction) : Prop :=
  t.user_id = uid ∧ t.type = .expense ∧ inRange dfrom dto t.date ∧ t.category_id = cid

instance (uid : Nat) (dfrom dto : CalDate) (cid : Nat) (t : Transaction) :
    Decidable (breakdownMatches uid dfrom dto cid t) := by
  unfold breakdownMatches; infer_instance

/-- The grouped query rows: each active category with at least one
matching expense transaction, paired with its summed spend. -/
def spendingRows (uid : Nat) (dfrom dto : CalDate) (s : AppState) : List (Category × ℚ) :=
  (s.categories.filter fun c => c.is_active).filterMap fun c =>
    let ms := s.transactions.filter fun t => decide (breakdownMatches uid dfrom dto c.id t)
    if ms.isEmpty then none else some (c, (ms.map (·.amount)).sum)

/-- `total_spent = sum(float(item.total) for item in spending)`. -/
def totalSpent (uid : Nat) (dfrom dto : CalDate) (s : AppState) : ℚ :=
  ((spendingRows uid dfrom dto s).map (·.2)).sum

/-- Floor of a rational, computed from its reduced fraction. -/
def ratFloor (q : ℚ) : Int := Int.fdiv q.num q.den

/-- Round-half-to-even to an integer (Python's `round`), modelled on
the exact rational value. -/
def roundHalfEven (q : ℚ) : Int :=
  let f := ratFloor q
  let r := q - (f : ℚ)
  if r < 1 / 2 then f
  else if 1 / 2 < r then f + 1
  else if f % 2 = 0 then f else f + 1

/-- `round(x, 1)`, modelled exactly. -/
def round1 (q : ℚ) : ℚ := (roundHalfEven (q * 10) : ℚ) / 10

/-- One entry of the chart payload. -/
structure ChartEntry where
  name : String
  value : ℚ
  percentage : ℚ
  icon : String
  color : String
deriving DecidableEq

/-- The `chart_data` list built by `reports.spending_by_category`:
percentage of the filtered total, guarded to `0` when that total is not
positive, rounded to one decimal place. -/
def chart_data (uid : Nat) (dfrom dto : CalDate) (s : AppState) : List ChartEntry :=
  (spendingRows uid dfrom dto s).map fun row =>
    { name := row.1.name, value := row.2,
      percentage :=
        round1 (if 0 < totalSpent uid dfrom dto s
          then row.2 / totalSpent uid dfrom dto s * 100 else 0),
      icon := row.1.icon, color := row.1.color }

/-- The total the spec demands the percentages be measured against: the
user's expense transactions inside the requested date range (carrying
an active category), summed directly — a definition independent of the
grouped query. -/
def filteredExpenseTotal (uid : Nat) (dfrom dto : CalDate) (s : AppState) : ℚ :=
  ((s.transactions.filter fun t =>
      decide (t.user_id = uid ∧ t.type = .expense ∧ inRange dfrom dto t.date ∧
        ∃ c ∈ s.categories, c.is_active = true ∧ c.id = t.category_id)).map
    (·.amount)).sum

/-! ### Account editing -/

/-- Row predicate for `Account.query.filter_by(id=aid, user_id=uid)`. -/
def accountKey (uid aid : Nat) (a : Account) : Bool :=
  decide (a.id = aid ∧ a.user_id = uid)

/-- `accounts.edit`.  When the submitted `initial_balance` differs from
the stored one, the Python handler evaluates
`form.initial_balance.data - float(account.initial_balance)`, a
`decimal.Decimal` minus a `float`; the `decimal` module refuses mixed
arithmetic with `float`, so this raises `TypeError` and the request
aborts with a server error before `db.session.commit()` — nothing is
persisted.  That branch is therefore modelled as `.error .typeError`.
(The preceding `!=` comparison between `Decimal` and `float` is legal
in Python and is modelled as the exact comparison.)  When the initial
balance is unchanged, only name/type/currency are rewritten. -/
def editAccount (uid aid : Nat) (nm : String) (atype : AccountType) (newInit : ℚ)
    (currency : String) (s : AppState) : Except OpError AppState :=
  match s.accounts.find? (accountKey uid aid) with
  | none => .error .notFound
  | some acc =>
    if ¬ 0 < newInit then .error .validation
    else if newInit ≠ acc.initial_balance then .error .typeError
    else .ok { s with
      accounts :=
        updateById aid (fun a => { a with name := nm, type := atype, currency := currency })
          s.accounts }

/-! ### CSV import -/

/-- One row of an imported CSV file.  The date is carried already
parsed (`None` models a date the Python parser failed on, which falls
back to today); `amount` is the signed source amount. -/
structure CsvRow where
  date : Option CalDate
  amount : ℚ
  account : String
  category : String
  description : String

/-- `settings.import_csv_data`, one row: get-or-create the account
(type checking, USD, column-default zero balances) and the category
(type inferred from the sign), then insert the transaction with the
absolute amount — the source never touches `current_balance` here. -/
def importCsvRow (uid : Nat) (today : CalDate) (s : AppState) (row : CsvRow) : AppState :=
  let txnDate := row.date.getD today
  let acctFound := s.accounts.find? fun a => decide (a.name = row.account ∧ a.user_id = uid)
  let s1 : AppState :=
    match acctFound with
    | some _ => s
    | none =>
      { s with
        accounts := s.accounts ++
          [{ id := nextId (s.accounts.map (·.id)), name := row.account, type := .checking,
             initial_balance := 0, current_balance := 0, currency := "USD",
             is_active := true, user_id := uid }] }
  let aid : Nat :=
    match acctFound with
    | some a => a.id
    | none => nextId (s.accounts.map (·.id))
  let catFound := s1.categories.find? fun c => decide (c.name = row.category ∧ c.user_id = some uid)
  let s2 : AppState :=
    match catFound with
    | some _ => s1
    | none =>
      { s1 with
        categories := s1.categories ++
          [{ id := nextId (s1.categories.map (·.id)), name := row.category,
             type := if row.amount < 0 then .expense else .income,
             icon := "📁", color := "#808080", user_id := some uid, parent_id := none,
             is_system := false, is_active := true }] }
  let cid : Nat :=
    match catFound with
    | some c => c.id
    | none => nextId (s1.categories.map (·.id))
  { s2 with
    transactions := s2.transactions ++
      [{ id := nextId (s2.transactions.map (·.id)), amount := |row.amount|,
         type := if row.amount < 0 then .expense else .income, date := txnDate,
         description := row.description, user_id := uid, account_id := aid,
         category_id := cid }] }

/-- `settings.import_csv_data` over a whole file. -/
def import_csv_data (uid : Nat) (today : CalDate) (rows : List CsvRow) (s : AppState) : AppState :=
  rows.foldl (importCsvRow uid today) s

/-! ### The balance invariant, per-entry form -/

/-- Signed contribution of one transaction to account `aid`. -/
def txnEffect (aid : Nat) (t : Transaction) : ℚ :=
  if t.account_id = aid then
    (match t.type with
     | .income => t.amount
     | .expense => -t.amount)
  else 0

/-- Signed contribution of one transfer to account `aid`. -/
def transferEffect (aid : Nat) (tr : Transfer) : ℚ :=
  (if tr.to_account_id = aid then tr.amount else 0) -
    (if tr.from_account_id = aid then tr.amount else 0)

/-- The balance invariant, written entrywise (used in the proofs). -/
def EffInvariant (s : AppState) : Prop :=
  ∀ a ∈ s.accounts,
    a.current_balance = a.initial_balance + (s.transactions.map (txnEffect a.id)).sum
      + (s.transfers.map (transferEffect a.id)).sum

theorem incomeSum_sub_expenseSum (aid : Nat) (ts : List Transaction) :
    incomeSum aid ts - expenseSum aid ts = (ts.map (txnEffect aid)).sum := by
  induction ts with
  | nil => simp [incomeSum, expenseSum]
  | cons t ts ih =>
    rw [List.map_cons, List.sum_cons, ← ih]
    by_cases h1 : t.account_id = aid
    · cases h2 : t.type <;>
        simp [incomeSum, expenseSum, txnEffect, List.filter_cons, h1, h2] <;> ring
    · simp [incomeSum, expenseSum, txnEffect, List.filter_cons, h1]

theorem incomingSum_sub_outgoingSum (aid : Nat) (trs : List Transfer) :
    incomingSum aid trs - outgoingSum aid trs = (trs.map (transferEffect aid)).sum := by
  induction trs with
  | nil => simp [incomingSum, outgoingSum]
  | cons tr trs ih =>
    rw [List.map_cons, List.sum_cons, ← ih]
    by_cases h1 : tr.to_account_id = aid <;> by_cases h2 : tr.from_account_id = aid <;>
      simp [incomingSum, outgoingSum, transferEffect, List.filter_cons, h1, h2] <;> ring

theorem balanceInvariant_iff (s : AppState) : BalanceInvariant s ↔ EffInvariant s := by
  unfold BalanceInvariant EffInvariant
  refine forall₂_congr fun a _ => ?_
  rw [← incomeSum_sub_expenseSum, ← incomingSum_sub_outgoingSum]
  constructor <;> intro h <;> linarith

/-! ### List helper lemmas -/

theorem le_foldr_max (l : List Nat) : ∀ x ∈ l, x ≤ l.foldr max 0 := by
  induction l with
  | nil => intro x hx; cases hx
  | cons y ys ih =>
    intro x hx
    rcases hx with _ | hx
    · exact le_max_left _ _
    · exact le_trans (ih x ‹x ∈ ys›) (le_max_right _ _)

theorem lt_nextId (l : List Nat) : ∀ x ∈ l, x < nextId l := fun x hx =>
  Nat.lt_succ_of_le (le_foldr_max l x hx)

theorem sum_map_modifyFirst {α : Type} (p : α → Bool) (f : α → α) (g : α → ℚ) :
    ∀ (l : List α) (x : α), l.find? p = some x →
      ((modifyFirst p f l).map g).sum = (l.map g).sum - g x + g (f x) := by
  intro l
  induction l with
  | nil => intro x hx; simp [List.find?] at hx
  | cons y ys ih =>
    intro x hx
    by_cases hy : p y = true
    · simp only [List.find?, hy] at hx
      injection hx with hx; subst hx
      simp [modifyFirst, hy]
      ring
    · rw [Bool.not_eq_true] at hy
      simp only [List.find?, hy] at hx
      simp [modifyFirst, hy, ih x hx]
      ring

theorem sum_map_removeFirst {α : Type} (p : α → Bool) (g : α → ℚ) :
    ∀ (l : List α) (x : α), l.find? p = some x →
      ((removeFirst p l).map g).sum = (l.map g).sum - g x := by
  intro l
  induction l with
  | nil => intro x hx; simp [List.find?] at hx
  | cons y ys ih =>
    intro x hx
    by_cases hy : p y = true
    · simp only [List.find?, hy] at hx
      injection hx with hx; subst hx
      simp [removeFirst, hy]
    · rw [Bool.not_eq_true] at hy
      simp only [List.find?, hy] at hx
      simp [removeFirst, hy, ih x hx]
      ring

theorem mem_updateById {aid : Nat} {f : Account → Account} {l : List Account} {b : Account} :
    b ∈ updateById aid f l ↔ ∃ a ∈ l, (if a.id = aid then f a else a) = b := by
  simp [updateById]

theorem Account.update_balance_id (a : Account) (t : TransactionType) (x : ℚ) :
    (a.update_balance t x).id = a.id := by cases t <;> rfl

theorem Account.update_balance_initial (a : Account) (t : TransactionType) (x : ℚ) :
    (a.update_balance t x).initial_balance = a.initial_balance := by cases t <;> rfl

theorem Account.reverse_balance_id (a : Account) (t : TransactionType) (x : ℚ) :
    (a.reverse_balance t x).id = a.id := by cases t <;> rfl

theorem Account.reverse_balance_initial (a : Account) (t : TransactionType) (x : ℚ) :
    (a.reverse_balance t x).initial_balance = a.initial_balance := by cases t <;> rfl

/-! ### Per-operation preservation of the balance invariant -/

theorem createTransaction_ok_eff {today : CalDate} {uid : Nat} {amount : ℚ}
    {ttype : TransactionType} {d : CalDate} {desc : String} {aid cid : Nat} {s s' : AppState}
    (hInv : EffInvariant s)
    (h : createTransaction today uid amount ttype d desc aid cid s = .ok s') :
    EffInvariant s' := by
  unfold createTransaction at h
  split_ifs at h
  injection h with h
  subst h
  intro a' ha'
  simp only [updateById] at ha'
  obtain ⟨a, ha, rfl⟩ := List.mem_map.mp ha'
  have ih := hInv a ha
  by_cases hid : a.id = aid
  · rw [hid] at ih
    cases ttype <;>
      simp only [hid, if_pos, Account.update_balance, List.map_cons, List.sum_cons,
        txnEffect, if_true, eq_self_iff_true] <;>
      linarith [ih]
  · have hid2 : ¬ (aid = a.id) := fun hx => hid hx.symm
    simp only [hid, if_false, if_neg, List.map_cons, List.sum_cons, txnEffect, hid2]
    linarith [ih]

theorem deleteTransaction_ok_eff {uid tid : Nat} {s s' : AppState}
    (hInv : EffInvariant s) (h : deleteTransaction uid tid s = .ok s') :
    EffInvariant s' := by
  unfold deleteTransaction at h
  cases hfind : s.transactions.find? (txnKey uid tid) with
  | none => rw [hfind] at h; exact Except.noConfusion h
  | some t =>
    rw [hfind] at h
    injection h with h
    subst h
    intro a' ha'
    simp only [updateById] at ha'
    obtain ⟨a, ha, rfl⟩ := List.mem_map.mp ha'
    have ih := hInv a ha
    have hsum := sum_map_removeFirst (txnKey uid tid) (txnEffect a.id) s.transactions t hfind
    by_cases hid : a.id = t.account_id
    · have hid' : t.account_id = a.id := hid.symm
      rw [if_pos hid, Account.reverse_balance_id, Account.reverse_balance_initial, hsum]
      cases htype : t.type <;>
        simp only [Account.reverse_balance, htype, txnEffect, hid', eq_self_iff_true,
          if_true, if_pos] <;>
        linarith [ih]
    · have hid2 : ¬ (t.account_id = a.id) := fun hx => hid hx.symm
      rw [if_neg hid, hsum]
      simp only [txnEffect, hid2, if_neg, if_false]
      linarith [ih]

theorem editTransaction_ok_eff {today : CalDate} {uid tid : Nat} {amount : ℚ}
    {ttype : TransactionType} {d : CalDate} {desc : String} {aid cid : Nat} {s s' : AppState}
    (hInv : EffInvariant s)
    (h : editTransaction today uid tid amount ttype d desc aid cid s = .ok s') :
    EffInvariant s' := by
  unfold editTransaction at h
  cases hfind : s.transactions.find? (txnKey uid tid) with
  | none => rw [hfind] at h; exact Except.noConfusion h
  | some old =>
    rw [hfind] at h
    split_ifs at h with h1 h2 h3 h4
    injection h with h
    subst h
    by_cases hacct : old.account_id ≠ aid
    · rw [if_pos hacct]
      intro a' ha'
      simp only [updateById, List.map_map] at ha'
      obtain ⟨a, ha, rfl⟩ := List.mem_map.mp ha'
      have ih := hInv a ha
      have hsum := sum_map_modifyFirst (txnKey uid tid)
        (fun t =>
          { t with
            amount := amount, type := ttype, date := d,
            description := desc, account_id := aid, category_id := cid })
        (txnEffect a.id) s.transactions old hfind
      simp only [Function.comp]
      by_cases hid1 : a.id = old.account_id
      · have hid1s : old.account_id = a.id := hid1.symm
        have hne : ¬ ((a.reverse_balance old.type old.amount).id = aid) := by
          rw [Account.reverse_balance_id, hid1]; exact fun hx => hacct hx
        rw [if_pos hid1, if_neg hne, Account.reverse_balance_id,
          Account.reverse_balance_initial, hsum]
        have hnew : ¬ (aid = a.id) := fun hx => hacct (hid1s.symm ▸ hx.symm)
        cases hot : old.type <;>
          simp only [Account.reverse_balance, hot, txnEffect, hid1s, hnew, eq_self_iff_true,
            if_true, if_pos, if_neg, if_false] <;>
          linarith [ih]
      · rw [if_neg hid1]
        have hold2 : ¬ (old.account_id = a.id) := fun hx => hid1 hx.symm
        by_cases hid2 : a.id = aid
        · have hid2s : aid = a.id := hid2.symm
          rw [if_pos hid2, Account.update_balance_id, Account.update_balance_initial, hsum]
          cases ttype <;>
            simp only [Account.update_balance, txnEffect, hold2, hid2s, eq_self_iff_true,
              if_true, if_pos, if_neg, if_false] <;>
            linarith [ih]
        · rw [if_neg hid2, hsum]
          have hnew2 : ¬ (aid = a.id) := fun hx => hid2 hx.symm
          simp only [txnEffect, hold2, hnew2, if_neg, if_false]
          linarith [ih]
    · rw [if_neg hacct]
      rw [not_not] at hacct
      intro a' ha'
      simp only [updateById] at ha'
      obtain ⟨a, ha, rfl⟩ := List.mem_map.mp ha'
      have ih := hInv a ha
      have hsum := sum_map_modifyFirst (txnKey uid tid)
        (fun t =>
          { t with
            amount := amount, type := ttype, date := d,
            description := desc, account_id := aid, category_id := cid })
        (txnEffect a.id) s.transactions old hfind
      by_cases hid : a.id = aid
      · have hids : aid = a.id := hid.symm
        have holdid : old.account_id = a.id := hacct.trans hid.symm
        rw [if_pos hid, Account.update_balance_id, Account.reverse_balance_id,
          Account.update_balance_initial, Account.reverse_balance_initial, hsum]
        cases hot : old.type <;> cases ttype <;>
          simp only [Account.update_balance, Account.reverse_balance, hot, txnEffect,
            holdid, hids, eq_self_iff_true, if_true, if_pos] <;>
          linarith [ih]
      · rw [if_neg hid, hsum]
        have hnew2 : ¬ (aid = a.id) := fun hx => hid hx.symm
        have hold2 : ¬ (old.account_id = a.id) := fun hx => hnew2 (hacct.symm.trans hx)
        simp only [txnEffect, hold2, hnew2, if_neg, if_false]
        linarith [ih]

theorem createTransfer_ok_eff {today : CalDate} {uid : Nat} {amount : ℚ} {d : CalDate}
    {desc : String} {fromId toId : Nat} {s s' : AppState}
    (hInv : EffInvariant s)
    (h : createTransfer today uid amount d desc fromId toId s = .ok s') :
    EffInvariant s' := by
  unfold createTransfer at h
  split_ifs at h with h1 h2 h3 h4 h5 h6 h7 h8
  injection h with h
  subst h
  intro a' ha'
  simp only [updateById, List.map_map] at ha'
  obtain ⟨a, ha, rfl⟩ := List.mem_map.mp ha'
  have ih := hInv a ha
  simp only [Function.comp]
  by_cases hid1 : a.id = fromId
  · have hne : ¬ (a.id = toId) := fun hx => h5 (hid1.symm.trans hx)
    rw [if_pos hid1]
    have hto : ¬ (toId = a.id) := fun hx => hne hx.symm
    have hfrom2 : fromId = a.id := hid1.symm
    simp only [List.map_cons, List.sum_cons, transferEffect, hto, hfrom2,
      eq_self_iff_true, if_true, if_pos, if_neg, if_false, hne]
    linarith [ih]
  · rw [if_neg hid1]
    have hfrom2 : ¬ (fromId = a.id) := fun hx => hid1 hx.symm
    by_cases hid2 : a.id = toId
    · rw [if_pos hid2]
      have hto : toId = a.id := hid2.symm
      simp only [List.map_cons, List.sum_cons, transferEffect, hto, hfrom2,
        eq_self_iff_true, if_true, if_pos, if_neg, if_false]
      linarith [ih]
    · rw [if_neg hid2]
      have hto : ¬ (toId = a.id) := fun hx => hid2 hx.symm
      simp only [List.map_cons, List.sum_cons, transferEffect, hto, hfrom2,
        if_neg, if_false]
      linarith [ih]

theorem deleteTransfer_ok_eff {uid trid : Nat} {s s' : AppState}
    (hInv : EffInvariant s) (h : deleteTransfer uid trid s = .ok s') :
    EffInvariant s' := by
  unfold deleteTransfer at h
  cases hfind : s.transfers.find? (transferKey uid trid) with
  | none => rw [hfind] at h; exact Except.noConfusion h
  | some tr =>
    rw [hfind] at h
    injection h with h
    subst h
    intro a' ha'
    simp only [updateById, List.map_map] at ha'
    obtain ⟨a, ha, rfl⟩ := List.mem_map.mp ha'
    have ih := hInv a ha
    have hsum := sum_map_removeFirst (transferKey uid trid) (transferEffect a.id)
      s.transfers tr hfind
    simp only [Function.comp]
    by_cases hid1 : a.id = tr.from_account_id
    · rw [if_pos hid1]
      have hfrom2 : tr.from_account_id = a.id := hid1.symm
      by_cases hid2 : a.id = tr.to_account_id
      · have hto : tr.to_account_id = a.id := hid2.symm
        have hcond : ({ a with current_balance := a.current_balance + tr.amount } : Account).id
            = tr.to_account_id := hid2
        rw [if_pos hcond, hsum]
        simp only [transferEffect, hto, hfrom2, eq_self_iff_true, if_true, if_pos]
        linarith [ih]
      · have hto : ¬ (tr.to_account_id = a.id) := fun hx => hid2 hx.symm
        have hcond : ¬ (({ a with current_balance := a.current_balance + tr.amount } : Account).id
            = tr.to_account_id) := hid2
        rw [if_neg hcond, hsum]
        simp only [transferEffect, hto, hfrom2, eq_self_iff_true, if_true, if_pos,
          if_neg, if_false]
        linarith [ih]
    · rw [if_neg hid1]
      have hfrom2 : ¬ (tr.from_account_id = a.id) := fun hx => hid1 hx.symm
      by_cases hid2 : a.id = tr.to_account_id
      · have hto : tr.to_account_id = a.id := hid2.symm
        rw [if_pos hid2, hsum]
        simp only [transferEffect, hto, hfrom2, eq_self_iff_true, if_true, if_pos,
          if_neg, if_false]
        linarith [ih]
      · have hto : ¬ (tr.to_account_id = a.id) := fun hx => hid2 hx.symm
        rw [if_neg hid2, hsum]
        simp only [transferEffect, hto, hfrom2, if_neg, if_false]
        linarith [ih]

/-- Any single ledger request preserves the balance invariant. -/
theorem applyLedgerOp_eff (today : CalDate) (s : AppState) (op : LedgerOp)
    (hInv : EffInvariant s) : EffInvariant (applyLedgerOp today s op) := by
  unfold applyLedgerOp applyExcept
  cases op with
  | createTxn uid amount ttype d desc aid cid =>
    cases hr : runLedgerOp today s (.createTxn uid amount ttype d desc aid cid) with
    | ok s2 => exact createTransaction_ok_eff hInv hr
    | error e => exact hInv
  | editTxn uid tid amount ttype d desc aid cid =>
    cases hr : runLedgerOp today s (.editTxn uid tid amount ttype d desc aid cid) with
    | ok s2 => exact editTransaction_ok_eff hInv hr
    | error e => exact hInv
  | deleteTxn uid tid =>
    cases hr : runLedgerOp today s (.deleteTxn uid tid) with
    | ok s2 => exact deleteTransaction_ok_eff hInv hr
    | error e => exact hInv
  | createTr uid amount d desc fromId toId =>
    cases hr : runLedgerOp today s (.createTr uid amount d desc fromId toId) with
    | ok s2 => exact createTransfer_ok_eff hInv hr
    | error e => exact hInv
  | deleteTr uid trid =>
    cases hr : runLedgerOp today s (.deleteTr uid trid) with
    | ok s2 => exact deleteTransfer_ok_eff hInv hr
    | error e => exact hInv

/-! ### Round-trip helper lemmas -/

theorem find?_cons_self {α : Type} {p : α → Bool} {x : α} (l : List α) (hx : p x = true) :
    (x :: l).find? p = some x := by
  simp [List.find?, hx]

theorem removeFirst_cons_self {α : Type} {p : α → Bool} {x : α} (l : List α) (hx : p x = true) :
    removeFirst p (x :: l) = l := by
  simp [removeFirst, hx]

theorem updateById_cancel (aid : Nat) (f g : Account → Account)
    (hfid : ∀ a, (f a).id = a.id) (hcancel : ∀ a, g (f a) = a) (l : List Account) :
    updateById aid g (updateById aid f l) = l := by
  induction l with
  | nil => rfl
  | cons a l ih =>
    unfold updateById at *
    simp only [List.map_cons]
    by_cases hid : a.id = aid
    · rw [if_pos hid]
      have h2 : (f a).id = aid := (hfid a).trans hid
      rw [if_pos h2, hcancel a, ih]
    · rw [if_neg hid, if_neg hid, ih]

theorem reverse_update_cancel (t : TransactionType) (x : ℚ) (a : Account) :
    (a.update_balance t x).reverse_balance t x = a := by
  cases t <;> simp [Account.update_balance, Account.reverse_balance]

theorem transfer_update_cancel (fromId toId : Nat) (x : ℚ) (hne : ¬ fromId = toId)
    (l : List Account) :
    updateById toId (fun a => { a with current_balance := a.current_balance - x })
      (updateById fromId (fun a => { a with current_balance := a.current_balance + x })
        (updateById toId (fun a => { a with current_balance := a.current_balance + x })
          (updateById fromId (fun a => { a with current_balance := a.current_balance - x }) l)))
      = l := by
  induction l with
  | nil => rfl
  | cons a l ih =>
    unfold updateById at *
    simp only [List.map_cons]
    congr 1
    · obtain ⟨i, n, t, ib, cb, cu, ia, u⟩ := a
      by_cases h1 : i = fromId
      · have h2 : ¬ i = toId := fun hx => hne (h1.symm.trans hx)
        simp [h1, h2, hne]
      · by_cases h2 : i = toId
        · have hne2 : ¬ toId = fromId := fun hx => hne hx.symm
          simp [h1, h2, hne2]
        · simp [h1, h2]

/-! ### Claims C1, C2, C3 -/

/-- Claim C1: for every account and every sequence of ledger operations
(create/edit/delete transaction, create/delete transfer), the account's
`current_balance` afterwards equals `initial_balance` plus the income
sum, minus the expense sum, minus outgoing transfers, plus incoming
transfers, over the ledger entries that still exist — provided the
state satisfied that derivability invariant to begin with. -/
theorem ledger_ops_preserve_balance_invariant (today : CalDate) (s : AppState)
    (ops : List LedgerOp) (hInv : BalanceInvariant s) :
    BalanceInvariant (applyLedgerOps today s ops) := by
  rw [balanceInvariant_iff] at hInv ⊢
  revert hInv
  unfold applyLedgerOps
  induction ops generalizing s with
  | nil => exact fun h => h
  | cons op ops ih =>
    intro h
    exact ih (applyLedgerOp today s op) (applyLedgerOp_eff today s op h)

/-- Claim C2: creating a transaction and immediately deleting it
restores the whole state exactly (balances and transaction set), and
likewise creating then deleting a transfer restores both account
balances exactly. -/
theorem create_then_delete_restores (today : CalDate) (uid : Nat) (amount : ℚ)
    (ttype : TransactionType) (d : CalDate) (desc : String) (aid cid : Nat)
    (fromId toId : Nat) (s s1 s2 : AppState) :
    (createTransaction today uid amount ttype d desc aid cid s = .ok s1 →
      deleteTransaction uid (nextId (s.transactions.map (·.id))) s1 = .ok s) ∧
    (createTransfer today uid amount d desc fromId toId s = .ok s2 →
      deleteTransfer uid (nextId (s.transfers.map (·.id))) s2 = .ok s) := by
  obtain ⟨acc, cats, txns, trs, bs⟩ := s
  constructor
  · intro h
    unfold createTransaction at h
    split_ifs at h
    injection h with h
    subst h
    unfold deleteTransaction
    rw [find?_cons_self]
    · dsimp only
      rw [removeFirst_cons_self]
      · rw [updateById_cancel aid _ _ (fun a => Account.update_balance_id a ttype amount)
          (reverse_update_cancel ttype amount)]
      · simp [txnKey]
    · simp [txnKey]
  · intro h
    unfold createTransfer at h
    split_ifs at h with h1 h2 h3 h4 h5 h6 h7 h8
    injection h with h
    subst h
    unfold deleteTransfer
    rw [find?_cons_self]
    · dsimp only
      rw [removeFirst_cons_self]
      · rw [transfer_update_cancel fromId toId amount h5]
      · simp [transferKey]
    · simp [transferKey]

/-- Claim C3: an edit that keeps the account and the type and changes
the amount from A to B moves the account balance by exactly B − A in
the type's direction (computed as one reversal plus one application,
which in exact decimal arithmetic is the same net delta), and leaves
every other account untouched. -/
theorem edit_amount_applies_net_delta (today : CalDate) (uid tid : Nat) (amount : ℚ)
    (d : CalDate) (desc : String) (cid : Nat) (s s' : AppState) (t0 : Transaction)
    (hfind : s.transactions.find? (txnKey uid tid) = some t0)
    (h : editTransaction today uid tid amount t0.type d desc t0.account_id cid s = .ok s') :
    s'.accounts = s.accounts.map fun a =>
      if a.id = t0.account_id then
        { a with
          current_balance := a.current_balance +
            (match t0.type with
             | .income => amount - t0.amount
             | .expense => t0.amount - amount) }
      else a := by
  unfold editTransaction at h
  rw [hfind] at h
  split_ifs at h with h1 h2 h3 h4
  injection h with h
  subst h
  rw [if_neg (not_not_intro rfl)]
  dsimp only
  unfold updateById
  refine List.map_congr_left ?_
  intro a _
  by_cases hid : a.id = t0.account_id
  · rw [if_pos hid, if_pos hid]
    obtain ⟨i, n, ty, ib, cb, cu, ia, u⟩ := a
    cases ht : t0.type <;>
      simp [Account.update_balance, Account.reverse_balance, ht] <;> ring
  · rw [if_neg hid, if_neg hid]

/-- A state with an empty ledger satisfies the balance invariant as
soon as every cached balance equals its initial balance. -/
theorem balanceInvariant_of_no_entries (s : AppState) (h1 : s.transactions = [])
    (h2 : s.transfers = [])
    (h : ∀ a ∈ s.accounts, a.current_balance = a.initial_balance) : BalanceInvariant s := by
  intro a ha
  rw [h1, h2]
  simp only [incomeSum, expenseSum, outgoingSum, incomingSum, List.filter_nil,
    List.map_nil, List.sum_nil, add_zero, sub_zero]
  exact h a ha

/-! ### Concrete witness fixtures -/

/-- The request date used by the witnesses. -/
def wToday : CalDate := { year := 2025, month := 6, day := 15 }

/-- A transaction date inside June 2025. -/
def wDate : CalDate := { year := 2025, month := 6, day := 1 }

/-- An empty description. -/
def noDesc : String := ""

/-- Witness account 1. -/
def wChecking : Account :=
  { id := 1, name := "Checking", type := .checking, initial_balance := 100,
    current_balance := 100, currency := "USD", is_active := true, user_id := 1 }

/-- Witness account 2. -/
def wSavings : Account :=
  { id := 2, name := "Savings", type := .savings, initial_balance := 20,
    current_balance := 20, currency := "USD", is_active := true, user_id := 1 }

/-- Witness expense category. -/
def wFood : Category :=
  { id := 1, name := "Food", type := .expense, icon := "F", color := "#ff0000",
    user_id := some 1, parent_id := none, is_system := false, is_active := true }

/-- Witness income category. -/
def wSalary : Category :=
  { id := 2, name := "Salary", type := .income, icon := "S", color := "#00ff00",
    user_id := some 1, parent_id := none, is_system := false, is_active := true }

/-- A balanced witness state with no ledger entries yet. -/
def wState : AppState :=
  { accounts := [wChecking, wSavings], categories := [wFood, wSalary],
    transactions := [], transfers := [], budgets := [] }

/-- A witness request sequence exercising all five operations. -/
def wOps : List LedgerOp :=
  [ .createTxn 1 50 .expense wDate noDesc 1 1,
    .createTr 1 20 wDate noDesc 1 2,
    .editTxn 1 1 30 .expense wDate noDesc 1 1,
    .deleteTxn 1 1 ]

/-- Witness for C1 at a concrete state and request sequence. -/
theorem ledger_ops_preserve_balance_invariant_witness :
    BalanceInvariant wState ∧ BalanceInvariant (applyLedgerOps wToday wState wOps) :=
  ⟨balanceInvariant_of_no_entries wState rfl rfl (by intro a ha; fin_cases ha <;> rfl),
   ledger_ops_preserve_balance_invariant wToday wState wOps
     (balanceInvariant_of_no_entries wState rfl rfl (by intro a ha; fin_cases ha <;> rfl))⟩

/-- Witness for C2: a concrete create/delete round trip of a
transaction and of a transfer, both returning the initial state. -/
theorem create_then_delete_restores_witness :
    deleteTransaction 1 (nextId (wState.transactions.map (·.id)))
        (applyExcept wState (createTransaction wToday 1 50 .expense wDate noDesc 1 1 wState))
      = .ok wState ∧
    deleteTransfer 1 (nextId (wState.transfers.map (·.id)))
        (applyExcept wState (createTransfer wToday 1 20 wDate noDesc 1 2 wState))
      = .ok wState :=
  ⟨(create_then_delete_restores wToday 1 50 .expense wDate noDesc 1 1 1 2 wState
      (applyExcept wState (createTransaction wToday 1 50 .expense wDate noDesc 1 1 wState))
      (applyExcept wState (createTransfer wToday 1 20 wDate noDesc 1 2 wState))).1
    rfl,
   (create_then_delete_restores wToday 1 20 .expense wDate noDesc 1 1 1 2 wState
      (applyExcept wState (createTransaction wToday 1 20 .expense wDate noDesc 1 1 wState))
      (applyExcept wState (createTransfer wToday 1 20 wDate noDesc 1 2 wState))).2
    rfl⟩

/-- Witness transaction: a $50 expense on account 1. -/
def wTxn : Transaction :=
  { id := 1, amount := 50, type := .expense, date := wDate, description := "",
    user_id := 1, account_id := 1, category_id := 1 }

/-- Account 1 after the witness expense was recorded. -/
def wChecking50 : Account :=
  { id := 1, name := "Checking", type := .checking, initial_balance := 100,
    current_balance := 50, currency := "USD", is_active := true, user_id := 1 }

/-- A consistent state holding the witness transaction. -/
def wStateTxn : AppState :=
  { accounts := [wChecking50, wSavings], categories := [wFood, wSalary],
    transactions := [wTxn], transfers := [], budgets := [] }

/-- Witness for C3: editing the $50 expense to $80 debits account 1 by
exactly $30. -/
theorem edit_amount_applies_net_delta_witness :
    (applyExcept wStateTxn
        (editTransaction wToday 1 1 80 wTxn.type wDate noDesc wTxn.account_id 1 wStateTxn)).accounts
      = wStateTxn.accounts.map fun a =>
          if a.id = wTxn.account_id then
            { a with
              current_balance := a.current_balance +
                (match wTxn.type with
                 | .income => (80 : ℚ) - wTxn.amount
                 | .expense => wTxn.amount - (80 : ℚ)) }
          else a :=
  edit_amount_applies_net_delta wToday 1 1 80 wDate noDesc 1 wStateTxn
    (applyExcept wStateTxn
      (editTransaction wToday 1 1 80 wTxn.type wDate noDesc wTxn.account_id 1 wStateTxn))
    wTxn rfl rfl

/-! ### Claim C4: the CSV import bypasses the balance update -/

/-- A CSV row describing a $50 outflow on the existing account. -/
def wCsvRow : CsvRow :=
  { date := some wDate, amount := -50, account := "Checking", category := "Food",
    description := "" }

/-- The transaction the import inserts for `wCsvRow`. -/
def wImportedTxn : Transaction :=
  { id := 1, amount := 50, type := .expense, date := wDate, description := "",
    user_id := 1, account_id := 1, category_id := 1 }

/-- Claim C4 (code bug): `import_csv_data` inserts the imported expense
transaction directly without ever applying its balance effect, so a
state that satisfied the balance invariant before the import violates
it afterwards — the account keeps `current_balance = 100` although the
remaining ledger entries now sum to −50. -/
theorem import_csv_bypasses_balance_update :
    BalanceInvariant wState ∧
    (import_csv_data 1 wToday [wCsvRow] wState).transactions = [wImportedTxn] ∧
    (import_csv_data 1 wToday [wCsvRow] wState).accounts = wState.accounts ∧
    ¬ BalanceInvariant (import_csv_data 1 wToday [wCsvRow] wState) := by
  refine ⟨balanceInvariant_of_no_entries wState rfl rfl (by intro a ha; fin_cases ha <;> rfl),
    rfl, rfl, ?_⟩
  intro h
  have hm : wChecking ∈ (import_csv_data 1 wToday [wCsvRow] wState).accounts := by
    show wChecking ∈ [wChecking, wSavings]
    exact List.mem_cons_self _ _
  have heq := h wChecking hm
  have htx : (import_csv_data 1 wToday [wCsvRow] wState).transactions = [wImportedTxn] := rfl
  have htr : (import_csv_data 1 wToday [wCsvRow] wState).transfers = [] := rfl
  rw [htx, htr] at heq
  have hInc : incomeSum wChecking.id [wImportedTxn] = 0 := rfl
  have hExp : expenseSum wChecking.id [wImportedTxn] = 50 + 0 := rfl
  have hOut : outgoingSum wChecking.id ([] : List Transfer) = 0 := rfl
  have hIn : incomingSum wChecking.id ([] : List Transfer) = 0 := rfl
  rw [hInc, hExp, hOut, hIn] at heq
  norm_num [wChecking] at heq

/-! ### Claim C10: editing an account's initial balance -/

/-- The string constant used by the account-edit witness. -/
def wNameChecking : String := "Checking"

/-- The currency constant used by the account-edit witness. -/
def wUSD : String := "USD"

/-- Claim C10 (code bug): submitting an account edit whose
`initial_balance` differs from the stored one reaches
`form.initial_balance.data - float(account.initial_balance)`, which
raises `TypeError` (`decimal.Decimal` minus `float`), so the request
aborts and no balance is adjusted; an edit that keeps the initial
balance succeeds and leaves every cached balance unchanged. -/
theorem account_edit_initial_balance_type_error :
    editAccount 1 1 wNameChecking .checking 120 wUSD wState = .error .typeError ∧
    editAccount 1 1 wNameChecking .checking 100 wUSD wState
      = .ok (applyExcept wState (editAccount 1 1 wNameChecking .checking 100 wUSD wState)) ∧
    (applyExcept wState (editAccount 1 1 wNameChecking .checking 100 wUSD wState)).accounts.map
        (·.current_balance)
      = wState.accounts.map (·.current_balance) :=
  ⟨rfl, rfl, rfl⟩

/-! ### Claim C5: creation versus edit validation -/

/-- Claim C5 counterexample: with category 2 being an income category,
creating an expense transaction that references it fails validation,
but editing an existing expense transaction onto that same category
succeeds — the edit route does not re-check the category's type. -/
theorem edit_accepts_mismatched_category_type :
    createTransaction wToday 1 40 .expense wDate noDesc 1 2 wState = .error .validation ∧
    editTransaction wToday 1 1 40 .expense wDate noDesc 1 2 wStateTxn
      = .ok (applyExcept wStateTxn (editTransaction wToday 1 1 40 .expense wDate noDesc 1 2 wStateTxn)) ∧
    (∃ t ∈ (applyExcept wStateTxn
        (editTransaction wToday 1 1 40 .expense wDate noDesc 1 2 wStateTxn)).transactions,
      t.id = 1 ∧ t.category_id = 2 ∧ t.type = .expense) :=
  ⟨rfl, rfl, by decide⟩

/-- Claim C5 (amended): `record_transaction` fails with
`ValidationError` when the amount is not positive, when the date is in
the future, or when no stored category of the transaction's type
carries the referenced id; the edit route applies the same amount and
date validation but accepts any active category of the owner regardless
of its type; and any failed request leaves the state unchanged. -/
theorem creation_and_edit_validation (today : CalDate) (uid : Nat) (amount : ℚ)
    (ttype : TransactionType) (d : CalDate) (desc : String) (aid cid tid : Nat) (s : AppState) :
    (¬ 0 < amount → createTransaction today uid amount ttype d desc aid cid s = .error .validation) ∧
    (¬ CalDate.le d today → createTransaction today uid amount ttype d desc aid cid s = .error .validation) ∧
    ((∀ c ∈ s.categories, c.id = cid → c.type ≠ ttype) →
      createTransaction today uid amount ttype d desc aid cid s = .error .validation) ∧
    (∀ t0, s.transactions.find? (txnKey uid tid) = some t0 →
      (¬ 0 < amount → editTransaction today uid tid amount ttype d desc aid cid s = .error .validation) ∧
      (¬ CalDate.le d today → editTransaction today uid tid amount ttype d desc aid cid s = .error .validation)) ∧
    (∀ t0, s.transactions.find? (txnKey uid tid) = some t0 →
      0 < amount → CalDate.le d today → activeAccountChoice s uid aid →
      editCategoryChoice s uid cid →
      ∃ s', editTransaction today uid tid amount ttype d desc aid cid s = .ok s') ∧
    (∀ e, createTransaction today uid amount ttype d desc aid cid s = .error e →
      applyLedgerOp today s (.createTxn uid amount ttype d desc aid cid) = s) ∧
    (∀ e, editTransaction today uid tid amount ttype d desc aid cid s = .error e →
      applyLedgerOp today s (.editTxn uid tid amount ttype d desc aid cid) = s) := by
  refine ⟨?_, ?_, ?_, ?_, ?_, ?_, ?_⟩
  · intro h
    unfold createTransaction
    rw [if_pos h]
  · intro h
    unfold createTransaction
    split_ifs <;> rfl
  · intro h
    unfold createTransaction
    split_ifs with g1 g2 g3 g4 <;> try rfl
    obtain ⟨c, hc, hct, hca, hci⟩ := g4
    exact absurd hct (h c hc hci)
  · intro t0 hfind
    constructor
    · intro h
      unfold editTransaction
      rw [hfind]
      dsimp only
      rw [if_pos h]
    · intro h
      unfold editTransaction
      rw [hfind]
      dsimp only
      split_ifs <;> rfl
  · intro t0 hfind ham hdate hacc hcat
    unfold editTransaction
    rw [hfind]
    dsimp only
    rw [if_neg (not_not_intro ham), if_neg (not_not_intro hdate),
      if_neg (not_not_intro hacc), if_neg (not_not_intro hcat)]
    exact ⟨_, rfl⟩
  · intro e h
    unfold applyLedgerOp runLedgerOp applyExcept
    dsimp only
    rw [h]
  · intro e h
    unfold applyLedgerOp runLedgerOp applyExcept
    dsimp only
    rw [h]

/-- A date strictly after `wToday`. -/
def wFuture : CalDate := { year := 2030, month := 1, day := 1 }

/-- Witness for C5 (amended) at concrete inputs. -/
theorem creation_and_edit_validation_witness :
    createTransaction wToday 1 (-5) .expense wDate noDesc 1 1 wState = .error .validation ∧
    createTransaction wToday 1 40 .expense wFuture noDesc 1 1 wState = .error .validation ∧
    createTransaction wToday 1 40 .expense wDate noDesc 1 2 wState = .error .validation ∧
    editTransaction wToday 1 1 (-5) .expense wDate noDesc 1 1 wStateTxn = .error .validation ∧
    (∃ s', editTransaction wToday 1 1 40 .expense wDate noDesc 1 2 wStateTxn = .ok s') ∧
    applyLedgerOp wToday wState (.createTxn 1 40 .expense wFuture noDesc 1 1) = wState :=
  ⟨(creation_and_edit_validation wToday 1 (-5) .expense wDate noDesc 1 1 1 wState).1
     (by decide),
   (creation_and_edit_validation wToday 1 40 .expense wFuture noDesc 1 1 1 wState).2.1
     (by decide),
   (creation_and_edit_validation wToday 1 40 .expense wDate noDesc 1 2 1 wState).2.2.1
     (by decide),
   ((creation_and_edit_validation wToday 1 (-5) .expense wDate noDesc 1 1 1 wStateTxn).2.2.2.1
     wTxn rfl).1 (by decide),
   (creation_and_edit_validation wToday 1 40 .expense wDate noDesc 1 2 1 wStateTxn).2.2.2.2.1
     wTxn rfl (by decide) (by decide) (by decide) (by decide),
   (creation_and_edit_validation wToday 1 40 .expense wFuture noDesc 1 1 1 wState).2.2.2.2.2.1
     .validation rfl⟩

/-! ### Claim C6: budget uniqueness -/

/-- Claim C6: creating a budget for an (owner, category, month) triple
that already has one fails with `DuplicateError` and changes nothing,
and a successful creation preserves the at-most-one-budget-per-triple
invariant while keeping every existing budget untouched. -/
theorem budget_uniqueness (uid cid : Nat) (amount : ℚ) (month : Nat) (s : AppState) :
    (budgetCategoryChoice s uid cid → 0 < amount → validMonth month →
      budgetTaken uid cid month s.budgets →
      createBudget uid cid amount month s = .error .duplicate ∧
        applyExcept s (createBudget uid cid amount month s) = s) ∧
    (∀ s', createBudget uid cid amount month s = .ok s' → BudgetUnique s.budgets →
      BudgetUnique s'.budgets ∧ ∀ b ∈ s.budgets, b ∈ s'.budgets) := by
  constructor
  · intro hch hpos hvm htaken
    have heq : createBudget uid cid amount month s = .error .duplicate := by
      unfold createBudget
      rw [if_neg (not_not_intro hch), if_neg (not_not_intro hpos),
        if_neg (not_not_intro hvm), if_pos htaken]
    refine ⟨heq, ?_⟩
    rw [heq]
    rfl
  · intro s' h huniq
    unfold createBudget at h
    split_ifs at h with g1 g2 g3 g4
    injection h with h
    subst h
    unfold BudgetUnique at huniq ⊢
    constructor
    · refine List.Pairwise.cons ?_ huniq
      intro b hb hkey
      exact g4 ⟨b, hb, hkey.1.symm, hkey.2.1.symm, hkey.2.2.symm⟩
    · intro b hb
      exact List.mem_cons_of_mem _ hb

/-- An existing June 2025 budget for category 1. -/
def wBudget : Budget := { id := 1, amount := 50, month := 202506, user_id := 1, category_id := 1 }

/-- Witness state carrying `wBudget`. -/
def wStateB : AppState :=
  { accounts := [wChecking, wSavings], categories := [wFood, wSalary],
    transactions := [], transfers := [], budgets := [wBudget] }

/-- Witness for C6: the duplicate attempt and a fresh-month creation. -/
theorem budget_uniqueness_witness :
    (createBudget 1 1 60 202506 wStateB = .error .duplicate ∧
      applyExcept wStateB (createBudget 1 1 60 202506 wStateB) = wStateB) ∧
    (BudgetUnique (applyExcept wStateB (createBudget 1 1 60 202507 wStateB)).budgets ∧
      ∀ b ∈ wStateB.budgets, b ∈ (applyExcept wStateB (createBudget 1 1 60 202507 wStateB)).budgets) :=
  ⟨(budget_uniqueness 1 1 60 202506 wStateB).1 (by decide) (by decide) (by decide) (by decide),
   (budget_uniqueness 1 1 60 202507 wStateB).2
     (applyExcept wStateB (createBudget 1 1 60 202507 wStateB)) rfl (by decide)⟩

/-! ### Claim C7: quick budget setup -/

/-- One quick-setup step never removes a stored budget. -/
theorem quickSetupStep_mem {uid month : Nat} {y : Int} {m : Nat} {ts : List Transaction}
    {bs : List Budget} (c : Category) {b : Budget} (hb : b ∈ bs) :
    b ∈ quickSetupStep uid month y m ts bs c := by
  unfold quickSetupStep
  split_ifs
  · exact List.mem_append_left _ hb
  · exact hb

/-- The quick-setup loop never removes a stored budget. -/
theorem quickSetup_foldl_mem {uid month : Nat} {y : Int} {m : Nat} {ts : List Transaction} :
    ∀ (cs : List Category) (bs : List Budget) (b : Budget), b ∈ bs →
      b ∈ cs.foldl (quickSetupStep uid month y m ts) bs := by
  intro cs
  induction cs with
  | nil => exact fun bs b hb => hb
  | cons c0 cs ih => exact fun bs b hb => ih _ b (quickSetupStep_mem c0 hb)

/-- After the loop has processed an active category with positive
prior-month spend, a budget with its key exists. -/
theorem quickSetup_foldl_exists {uid month : Nat} {y : Int} {m : Nat} {ts : List Transaction} :
    ∀ (cs : List Category) (bs : List Budget) (c : Category), c ∈ cs →
      c.is_active = true → 0 < spentInMonth uid y m c.id ts →
      ∃ b ∈ cs.foldl (quickSetupStep uid month y m ts) bs,
        b.user_id = uid ∧ b.category_id = c.id ∧ b.month = month := by
  intro cs
  induction cs with
  | nil => intro bs c hc; cases hc
  | cons c0 cs ih =>
    intro bs c hc hact hsp
    rcases List.mem_cons.mp hc with rfl | hc
    · by_cases ht : budgetTaken uid c.id month bs
      · obtain ⟨b, hb, hkey⟩ := ht
        exact ⟨b, quickSetup_foldl_mem cs _ b (quickSetupStep_mem c hb), hkey⟩
      · have hstep : quickSetupStep uid month y m ts bs c =
            bs ++ [{ id := nextId (bs.map (·.id)),
                     amount := spentInMonth uid y m c.id ts * (9 / 10),
                     month := month, user_id := uid, category_id := c.id }] := by
          unfold quickSetupStep
          rw [if_pos ⟨hact, hsp, ht⟩]
        refine ⟨{ id := nextId (bs.map (·.id)),
                  amount := spentInMonth uid y m c.id ts * (9 / 10),
                  month := month, user_id := uid, category_id := c.id },
          quickSetup_foldl_mem cs _ _ ?_, rfl, rfl, rfl⟩
        rw [hstep]
        exact List.mem_append_right _ (List.mem_singleton.mpr rfl)
    · exact ih (quickSetupStep uid month y m ts bs c0) c hc hact hsp

/-- Every budget the loop ever holds for a given key carries exactly
90% of that category's prior-month spend, provided the initial list
held none for the key. -/
theorem quickSetup_foldl_amount {uid month : Nat} {y : Int} {m : Nat} {ts : List Transaction}
    {cid : Nat} :
    ∀ (cs : List Category) (bs : List Budget),
      (∀ b ∈ bs, b.user_id = uid → b.category_id = cid → b.month = month →
        b.amount = spentInMonth uid y m cid ts * (9 / 10)) →
      ∀ b ∈ cs.foldl (quickSetupStep uid month y m ts) bs,
        b.user_id = uid → b.category_id = cid → b.month = month →
        b.amount = spentInMonth uid y m cid ts * (9 / 10) := by
  intro cs
  induction cs with
  | nil => exact fun bs h => h
  | cons c0 cs ih =>
    intro bs h
    refine ih _ ?_
    intro b hb hu hcat hm2
    unfold quickSetupStep at hb
    split_ifs at hb with hg
    · rcases List.mem_append.mp hb with hb | hb
      · exact h b hb hu hcat hm2
      · have hb' := List.mem_singleton.mp hb
        subst hb'
        dsimp only at hcat ⊢
        rw [← hcat]
    · exact h b hb hu hcat hm2

/-- When a budget for the key already exists, the loop adds nothing
for that key (the stored budget is left untouched). -/
theorem quickSetup_foldl_skip {uid month : Nat} {y : Int} {m : Nat} {ts : List Transaction}
    {cid : Nat} :
    ∀ (cs : List Category) (bs : List Budget),
      budgetTaken uid cid month bs →
      ((cs.foldl (quickSetupStep uid month y m ts) bs).filter fun b =>
          decide (b.user_id = uid ∧ b.category_id = cid ∧ b.month = month))
        = bs.filter fun b => decide (b.user_id = uid ∧ b.category_id = cid ∧ b.month = month) := by
  intro cs
  induction cs with
  | nil => intro bs _; rfl
  | cons c0 cs ih =>
    intro bs htaken
    have hstep :
        ((quickSetupStep uid month y m ts bs c0).filter fun b =>
            decide (b.user_id = uid ∧ b.category_id = cid ∧ b.month = month))
          = (bs.filter fun b =>
              decide (b.user_id = uid ∧ b.category_id = cid ∧ b.month = month)) ∧
        budgetTaken uid cid month (quickSetupStep uid month y m ts bs c0) := by
      unfold quickSetupStep
      split_ifs with hg
      · by_cases hcc : c0.id = cid
        · exact absurd (hcc ▸ htaken) hg.2.2
        · constructor
          · rw [List.filter_append]
            have hone :
                (([{ id := nextId (bs.map (·.id)),
                     amount := spentInMonth uid y m c0.id ts * (9 / 10),
                     month := month, user_id := uid, category_id := c0.id }] :
                    List Budget).filter fun b =>
                  decide (b.user_id = uid ∧ b.category_id = cid ∧ b.month = month)) = [] := by
              simp [hcc]
            rw [hone, List.append_nil]
          · obtain ⟨b, hb, hk⟩ := htaken
            exact ⟨b, List.mem_append_left _ hb, hk⟩
      · exact ⟨rfl, htaken⟩
    exact (ih _ hstep.2).trans hstep.1

/-- Claim C7 (amended: restricted to active categories, as the
source's spending query filters `Category.is_active`): quick setup
keeps every existing budget, creates for every active expense category
with positive spend in the preceding month and no budget for the
target month a budget at exactly 90% of that spend, and leaves the
budgets of already-budgeted categories exactly as they were. -/
theorem quick_setup_creates_ninety_percent_budgets (uid month : Nat) (s : AppState) :
    (∀ b ∈ s.budgets, b ∈ (quick_setup uid month s).budgets) ∧
    (∀ c ∈ s.categories, c.is_active = true → c.type = .expense →
      0 < spentInMonth uid (prevMonthOf month).1 (prevMonthOf month).2 c.id s.transactions →
      ¬ budgetTaken uid c.id month s.budgets →
      ∃ b ∈ (quick_setup uid month s).budgets,
        b.user_id = uid ∧ b.category_id = c.id ∧ b.month = month ∧
          b.amount = spentInMonth uid (prevMonthOf month).1 (prevMonthOf month).2 c.id
              s.transactions * (9 / 10)) ∧
    (∀ cid, budgetTaken uid cid month s.budgets →
      ((quick_setup uid month s).budgets.filter fun b =>
          decide (b.user_id = uid ∧ b.category_id = cid ∧ b.month = month))
        = s.budgets.filter fun b =>
            decide (b.user_id = uid ∧ b.category_id = cid ∧ b.month = month)) := by
  refine ⟨?_, ?_, ?_⟩
  · intro b hb
    exact quickSetup_foldl_mem s.categories s.budgets b hb
  · intro c hc hact _hty hsp hno
    obtain ⟨b, hb, hu, hcat, hm2⟩ :=
      quickSetup_foldl_exists s.categories s.budgets c hc hact hsp
    refine ⟨b, hb, hu, hcat, hm2, ?_⟩
    have hinit : ∀ b0 ∈ s.budgets, b0.user_id = uid → b0.category_id = c.id →
        b0.month = month →
        b0.amount = spentInMonth uid (prevMonthOf month).1 (prevMonthOf month).2 c.id
            s.transactions * (9 / 10) := by
      intro b0 hb0 h1 h2 h3
      exact absurd ⟨b0, hb0, h1, h2, h3⟩ hno
    exact quickSetup_foldl_amount s.categories s.budgets hinit b hb hu hcat hm2
  · intro cid htaken
    exact quickSetup_foldl_skip s.categories s.budgets htaken

/-- An inactive (archived) expense category. -/
def wFoodInactive : Category :=
  { id := 1, name := "Food", type := .expense, icon := "F", color := "#ff0000",
    user_id := some 1, parent_id := none, is_system := false, is_active := false }

/-- A date in January 2025. -/
def wJanDate : CalDate := { year := 2025, month := 1, day := 10 }

/-- A $200 January expense on the inactive category. -/
def wJanTxn : Transaction :=
  { id := 1, amount := 200, type := .expense, date := wJanDate, description := "",
    user_id := 1, account_id := 1, category_id := 1 }

/-- Counterexample state for C7 as originally stated. -/
def wStateQS : AppState :=
  { accounts := [wChecking], categories := [wFoodInactive], transactions := [wJanTxn],
    transfers := [], budgets := [] }

/-- Claim C7 counterexample: an inactive expense category with $200
spend in January 2025 and no February budget gets no budget from
quick setup for February 2025 — the claim as stated (over every
expense category) fails on inactive categories. -/
theorem quick_setup_skips_inactive_category :
    wFoodInactive ∈ wStateQS.categories ∧ wFoodInactive.type = .expense ∧
    0 < spentInMonth 1 (prevMonthOf 202502).1 (prevMonthOf 202502).2 1 wStateQS.transactions ∧
    ¬ budgetTaken 1 1 202502 wStateQS.budgets ∧
    (quick_setup 1 202502 wStateQS).budgets = [] := by
  refine ⟨by decide, rfl, ?_, by decide, rfl⟩
  rw [show spentInMonth 1 (prevMonthOf 202502).1 (prevMonthOf 202502).2 1 wStateQS.transactions
      = 200 + 0 from rfl]
  norm_num

/-- An active expense category named Transport. -/
def wTransport : Category :=
  { id := 1, name := "Transport", type := .expense, icon := "T", color := "#0000ff",
    user_id := some 1, parent_id := none, is_system := false, is_active := true }

/-- A $100 January expense on Transport. -/
def wJanTxn100 : Transaction :=
  { id := 1, amount := 100, type := .expense, date := wJanDate, description := "",
    user_id := 1, account_id := 1, category_id := 1 }

/-- Witness state for the quick-setup computation. -/
def wStateQS2 : AppState :=
  { accounts := [wChecking], categories := [wTransport], transactions := [wJanTxn100],
    transfers := [], budgets := [] }

/-- An existing February 2025 budget for Transport. -/
def wFebBudget : Budget :=
  { id := 1, amount := 55, month := 202502, user_id := 1, category_id := 1 }

/-- Witness state for the quick-setup skip rule. -/
def wStateQS3 : AppState :=
  { accounts := [wChecking], categories := [wTransport], transactions := [wJanTxn100],
    transfers := [], budgets := [wFebBudget] }

/-- Witness for C7 (amended): the $100-in-January example yields a
February budget of 90, and an existing February budget is untouched. -/
theorem quick_setup_creates_ninety_percent_budgets_witness :
    (∃ b ∈ (quick_setup 1 202502 wStateQS2).budgets,
      b.user_id = 1 ∧ b.category_id = 1 ∧ b.month = 202502 ∧
        b.amount = spentInMonth 1 (prevMonthOf 202502).1 (prevMonthOf 202502).2 1
            wStateQS2.transactions * (9 / 10)) ∧
    ((quick_setup 1 202502 wStateQS3).budgets.filter fun b =>
        decide (b.user_id = 1 ∧ b.category_id = 1 ∧ b.month = 202502))
      = wStateQS3.budgets.filter fun b =>
          decide (b.user_id = 1 ∧ b.category_id = 1 ∧ b.month = 202502) := by
  constructor
  · have hsp : 0 < spentInMonth 1 (prevMonthOf 202502).1 (prevMonthOf 202502).2 1
        wStateQS2.transactions := by
      rw [show spentInMonth 1 (prevMonthOf 202502).1 (prevMonthOf 202502).2 1
          wStateQS2.transactions = 100 + 0 from rfl]
      norm_num
    exact (quick_setup_creates_ninety_percent_budgets 1 202502 wStateQS2).2.1 wTransport
      (by decide) rfl rfl hsp (by decide)
  · exact (quick_setup_creates_ninety_percent_budgets 1 202502 wStateQS3).2.2 1 (by decide)

theorem transGen_last {R : Nat → Nat → Prop} {a b : Nat}
    (h : Relation.TransGen R a b) : ∃ c, R c b := by
  cases h with
  | single h1 => exact ⟨a, h1⟩
  | tail _ h2 => exact ⟨_, h2⟩

theorem transGen_head_step {R : Nat → Nat → Prop} {a b : Nat}
    (h : Relation.TransGen R a b) : ∃ c, R a c := by
  induction h with
  | single h1 => exact ⟨_, h1⟩
  | tail _ _ ih => exact ih

theorem transGen_avoid_target {R R2 : Nat → Nat → Prop} {x a b : Nat}
    (hnot : ∀ c, ¬ R2 c x) (hsub : ∀ u v, R2 u v → u ≠ x → R u v)
    (h : Relation.TransGen R2 a b) : a ≠ x → Relation.TransGen R a b := by
  induction h using Relation.TransGen.head_induction_on with
  | base h1 => exact fun ha => Relation.TransGen.single (hsub _ _ h1 ha)
  | ih h1 h2 ih =>
    intro ha
    rename_i a2 c2
    have hc : c2 ≠ x := fun he => hnot a2 (he ▸ h1)
    exact Relation.TransGen.head (hsub _ _ h1 ha) (ih hc)

theorem transGen_avoid_special {R R2 : Nat → Nat → Prop} {u v a b : Nat}
    (hsink : ∀ t, ¬ R2 v t)
    (hstep : ∀ p q, R2 p q → ¬ (p = u ∧ q = v) → R p q)
    (h : Relation.TransGen R2 a b) : b ≠ v → Relation.TransGen R a b := by
  induction h with
  | single h1 =>
    exact fun hb => Relation.TransGen.single (hstep _ _ h1 fun hx => hb hx.2)
  | tail h1 h2 ih =>
    intro hb
    rename_i b2 c2
    have hbm : b2 ≠ v := fun he => hsink c2 (he ▸ h2)
    exact Relation.TransGen.tail (ih hbm) (hstep _ _ h2 fun hx => hb hx.2)

theorem nodup_id_unique {cats : List Category} (hnd : (cats.map (·.id)).Nodup)
    {c1 c2 : Category} (h1 : c1 ∈ cats) (h2 : c2 ∈ cats) (he : c1.id = c2.id) : c1 = c2 :=
  List.inj_on_of_nodup_map hnd h1 h2 he

theorem mem_modifyFirst {α : Type} {p : α → Bool} {f : α → α} :
    ∀ {l : List α} {a : α}, a ∈ modifyFirst p f l →
      a ∈ l ∨ ∃ x, l.find? p = some x ∧ a = f x := by
  intro l
  induction l with
  | nil => intro a ha; cases ha
  | cons y ys ih =>
    intro a ha
    by_cases hy : p y = true
    · simp only [modifyFirst, hy, if_true] at ha
      rcases List.mem_cons.mp ha with rfl | ha
      · exact Or.inr ⟨y, by simp [List.find?, hy], rfl⟩
      · exact Or.inl (List.mem_cons_of_mem _ ha)
    · rw [Bool.not_eq_true] at hy
      simp only [modifyFirst, hy, Bool.false_eq_true, if_false] at ha
      rcases List.mem_cons.mp ha with rfl | ha
      · exact Or.inl (List.mem_cons_self _ _)
      · rcases ih ha with h | ⟨x, hx, he⟩
        · exact Or.inl (List.mem_cons_of_mem _ h)
        · exact Or.inr ⟨x, by simp [List.find?, hy, hx], he⟩

theorem map_modifyFirst_eq {α β : Type} (p : α → Bool) (f : α → α) (g : α → β)
    (hg : ∀ a, g (f a) = g a) : ∀ l : List α, (modifyFirst p f l).map g = l.map g := by
  intro l
  induction l with
  | nil => rfl
  | cons y ys ih =>
    by_cases hy : p y = true
    · simp only [modifyFirst, hy, if_true, List.map_cons, hg]
    · rw [Bool.not_eq_true] at hy
      simp only [modifyFirst, hy, Bool.false_eq_true, if_false, List.map_cons, ih]

theorem find?_eq_of_unique {α : Type} (p : α → Bool) {l : List α} {x : α} (hx : x ∈ l)
    (hpx : p x = true) (huni : ∀ y ∈ l, p y = true → y = x) : l.find? p = some x := by
  induction l with
  | nil => cases hx
  | cons a l ih =>
    by_cases hpa : p a = true
    · simp only [List.find?, hpa]
      exact congrArg some (huni a (List.mem_cons_self _ _) hpa)
    · rw [Bool.not_eq_true] at hpa
      simp only [List.find?, hpa]
      rcases List.mem_cons.mp hx with rfl | hx2
      · exact absurd hpx (by simp [hpa])
      · exact ih hx2 fun y hy hpy => huni y (List.mem_cons_of_mem _ hy) hpy

theorem acyclic_of_decreasing {cats : List Category}
    (h : ∀ a b, ParentStep cats a b → b < a) : Acyclic cats := by
  intro n hcyc
  have hlt : ∀ m, Relation.TransGen (ParentStep cats) n m → m < n := by
    intro m hm
    induction hm with
    | single h1 => exact h _ _ h1
    | tail _ h2 ih => exact (h _ _ h2).trans ih
  exact Nat.lt_irrefl n (hlt n hcyc)

theorem acyclic_cons {cats : List Category} {nc : Category} (hac : Acyclic cats)
    (hnostep : ∀ c ∈ cats, c.parent_id ≠ some nc.id)
    (hncpar : nc.parent_id ≠ some nc.id) :
    Acyclic (nc :: cats) := by
  intro n hcyc
  have hnot : ∀ c, ¬ ParentStep (nc :: cats) c nc.id := by
    rintro c ⟨rec, hrec, hid, hpar⟩
    rcases List.mem_cons.mp hrec with rfl | hrec
    · exact hncpar hpar
    · exact hnostep rec hrec hpar
  have hsub : ∀ u v, ParentStep (nc :: cats) u v → u ≠ nc.id → ParentStep cats u v := by
    rintro u v ⟨rec, hrec, hid, hpar⟩ hu
    rcases List.mem_cons.mp hrec with rfl | hrec
    · exact absurd hid.symm hu
    · exact ⟨rec, hrec, hid, hpar⟩
  by_cases hn : n = nc.id
  · subst hn
    obtain ⟨c, hc⟩ := transGen_last hcyc
    exact hnot c hc
  · exact hac n (transGen_avoid_target hnot hsub hcyc hn)

theorem catwf_modify {cats : List Category} (p : Category → Bool) (f : Category → Category)
    (hwf : CatWF cats) (hfid : ∀ c, (f c).id = c.id)
    (hfpar : ∀ c p2, (f c).parent_id = some p2 → ∃ c2 ∈ cats, c2.id = p2) :
    CatWF (modifyFirst p f cats) := by
  obtain ⟨hnd, hnz, hfk⟩ := hwf
  have hmap : (modifyFirst p f cats).map (·.id) = cats.map (·.id) :=
    map_modifyFirst_eq p f _ hfid cats
  refine ⟨hmap ▸ hnd, ?_, ?_⟩
  · intro c hc
    rcases mem_modifyFirst hc with hc | ⟨x, hx, rfl⟩
    · exact hnz c hc
    · rw [hfid]
      exact hnz x (List.mem_of_find?_eq_some hx)
  · intro c hc p2 hp2
    have htrans : ∀ q, (∃ c2 ∈ cats, c2.id = q) → ∃ c2 ∈ modifyFirst p f cats, c2.id = q := by
      rintro q ⟨c2, hc2, he2⟩
      have hq : q ∈ (modifyFirst p f cats).map (·.id) := by
        rw [hmap]
        exact List.mem_map.mpr ⟨c2, hc2, he2⟩
      obtain ⟨c3, hc3, he3⟩ := List.mem_map.mp hq
      exact ⟨c3, hc3, he3⟩
    rcases mem_modifyFirst hc with hc | ⟨x, hx, rfl⟩
    · exact htrans _ (hfk c hc p2 hp2)
    · exact htrans _ (hfpar x p2 hp2)

theorem acyclic_modifyReparent {cats : List Category} (p : Category → Bool)
    (f : Category → Category) {catId pc : Nat}
    (hac : Acyclic cats) (hnd : (cats.map (·.id)).Nodup)
    (hfid : ∀ c, (f c).id = c.id)
    (hfpar : ∀ c, (f c).parent_id = some pc)
    (hkey : ∀ c ∈ cats, p c = true → c.id = catId)
    (hP : ∃ P ∈ cats, P.id = pc ∧ P.parent_id = none ∧ P.id ≠ catId) :
    Acyclic (modifyFirst p f cats) := by
  obtain ⟨P, hPmem, hPid, hPpar, hPne⟩ := hP
  intro n hcyc
  have hsink : ∀ t, ¬ ParentStep (modifyFirst p f cats) pc t := by
    rintro t ⟨rec, hrec, hrid, hrpar⟩
    rcases mem_modifyFirst hrec with hrec | ⟨x, hx, rfl⟩
    · have he : rec = P := nodup_id_unique hnd hrec hPmem (hrid.trans hPid.symm)
      rw [he, hPpar] at hrpar
      cases hrpar
    · have hxmem : x ∈ cats := List.mem_of_find?_eq_some hx
      have hxkey : p x = true := List.find?_some hx
      have hxid : x.id = catId := hkey x hxmem hxkey
      rw [hfid] at hrid
      exact hPne (hPid.trans (hrid.symm.trans hxid))
  have hstep : ∀ a b, ParentStep (modifyFirst p f cats) a b →
      ¬ (a = catId ∧ b = pc) → ParentStep cats a b := by
    rintro a b ⟨rec, hrec, hrid, hrpar⟩ hno
    rcases mem_modifyFirst hrec with hrec | ⟨x, hx, rfl⟩
    · exact ⟨rec, hrec, hrid, hrpar⟩
    · exfalso
      apply hno
      have hxmem : x ∈ cats := List.mem_of_find?_eq_some hx
      have hxkey : p x = true := List.find?_some hx
      rw [hfid] at hrid
      rw [hfpar] at hrpar
      injection hrpar with hrpar
      exact ⟨hrid ▸ hkey x hxmem hxkey, hrpar.symm⟩
  by_cases hn : n = pc
  · subst hn
    obtain ⟨c, hc⟩ := transGen_head_step hcyc
    exact hsink c hc
  · exact hac n (transGen_avoid_special hsink hstep hcyc hn)

theorem acyclic_modify_noParent {cats : List Category} (p : Category → Bool)
    (f : Category → Category) (hac : Acyclic cats)
    (hfpar : ∀ c, (f c).parent_id = none) :
    Acyclic (modifyFirst p f cats) := by
  intro n hcyc
  refine hac n (Relation.TransGen.mono ?_ hcyc)
  rintro a b ⟨rec, hrec, hrid, hrpar⟩
  rcases mem_modifyFirst hrec with hrec | ⟨x, hx, rfl⟩
  · exact ⟨rec, hrec, hrid, hrpar⟩
  · rw [hfpar] at hrpar
    cases hrpar

theorem createCategory_ok {uid pc : Nat} {nm ic co : String} {tt : TransactionType}
    {s s' : AppState} (h : createCategory uid nm tt ic co pc s = .ok s') :
    createParentChoice s uid pc ∧
      s'.categories =
        { id := nextId (s.categories.map (·.id)), name := nm, type := tt, icon := ic,
          color := co, user_id := some uid,
          parent_id := if pc ≠ 0 then some pc else none,
          is_system := false, is_active := true } :: s.categories := by
  unfold createCategory at h
  by_cases hch : createParentChoice s uid pc
  · rw [if_neg (not_not_intro hch)] at h
    injection h with h
    exact ⟨hch, by rw [← h]⟩
  · rw [if_pos hch] at h
    cases h

theorem editCategory_ok {uid catId pc : Nat} {nm ic co : String} {tt : TransactionType}
    {s s' : AppState} (h : editCategory uid catId nm tt ic co pc s = .ok s') :
    (∃ cat, s.categories.find? (catKey uid catId) = some cat) ∧
      editParentChoice s uid catId pc ∧
      s'.categories = modifyFirst (catKey uid catId)
        (fun c =>
          { c with
            name := nm, type := tt, icon := ic, color := co,
            parent_id := if pc ≠ 0 then some pc else none })
        s.categories := by
  unfold editCategory at h
  cases hfind : s.categories.find? (catKey uid catId) with
  | none => rw [hfind] at h; cases h
  | some cat =>
    rw [hfind] at h
    dsimp only at h
    by_cases hsys : cat.is_system = true
    · rw [if_pos hsys] at h; cases h
    · rw [if_neg hsys] at h
      by_cases hch : editParentChoice s uid catId pc
      · rw [if_neg (not_not_intro hch)] at h
        injection h with h
        exact ⟨⟨cat, rfl⟩, hch, by rw [← h]⟩
      · rw [if_pos hch] at h; cases h

theorem createCategory_preserves {uid pc : Nat} {nm ic co : String} {tt : TransactionType}
    {s s' : AppState} (hwf : CatWF s.categories) (hac : Acyclic s.categories)
    (h : createCategory uid nm tt ic co pc s = .ok s') :
    CatWF s'.categories ∧ Acyclic s'.categories := by
  obtain ⟨hch, hcats⟩ := createCategory_ok h
  obtain ⟨hnd, hnz, hfk⟩ := hwf
  have hfresh : ∀ c ∈ s.categories, c.id ≠ nextId (s.categories.map (·.id)) := by
    intro c hc
    exact Nat.ne_of_lt (lt_nextId _ _ (List.mem_map.mpr ⟨c, hc, rfl⟩))
  have hnotmem : nextId (s.categories.map (·.id)) ∉ s.categories.map (·.id) := by
    intro hmem
    obtain ⟨c, hc, hcid⟩ := List.mem_map.mp hmem
    exact hfresh c hc hcid
  constructor
  · rw [hcats]
    refine ⟨List.nodup_cons.mpr ⟨hnotmem, hnd⟩, ?_, ?_⟩
    · intro c hc
      rcases List.mem_cons.mp hc with rfl | hc
      · exact Nat.succ_ne_zero _
      · exact hnz c hc
    · intro c hc p hp
      rcases List.mem_cons.mp hc with rfl | hc
      · dsimp only at hp
        by_cases hpc : pc ≠ 0
        · rw [if_pos hpc] at hp
          injection hp with hp
          rcases hch with rfl | ⟨P, hP, hu2, hp2, ha2, hPid⟩
          · exact absurd rfl hpc
          · exact ⟨P, List.mem_cons_of_mem _ hP, hp ▸ hPid⟩
        · rw [if_neg hpc] at hp
          cases hp
      · obtain ⟨c2, hc2, he2⟩ := hfk c hc p hp
        exact ⟨c2, List.mem_cons_of_mem _ hc2, he2⟩
  · rw [hcats]
    refine acyclic_cons hac ?_ ?_
    · intro c hc hpar
      obtain ⟨c2, hc2, he2⟩ := hfk c hc _ hpar
      exact hfresh c2 hc2 he2
    · dsimp only
      intro hpar
      by_cases hpc : pc ≠ 0
      · rw [if_pos hpc] at hpar
        injection hpar with hpar
        rcases hch with rfl | ⟨P, hP, hu2, hp2, ha2, hPid⟩
        · exact hpc rfl
        · exact hfresh P hP (hPid.trans hpar)
      · rw [if_neg hpc] at hpar
        cases hpar

theorem editCategory_preserves {uid catId pc : Nat} {nm ic co : String} {tt : TransactionType}
    {s s' : AppState} (hwf : CatWF s.categories) (hac : Acyclic s.categories)
    (h : editCategory uid catId nm tt ic co pc s = .ok s') :
    CatWF s'.categories ∧ Acyclic s'.categories := by
  obtain ⟨⟨cat0, hfind⟩, hch, hcats⟩ := editCategory_ok h
  have hkey : ∀ c ∈ s.categories, catKey uid catId c = true → c.id = catId := by
    intro c hc hk
    exact (of_decide_eq_true hk).1
  constructor
  · rw [hcats]
    refine catwf_modify _ _ hwf (fun c => rfl) ?_
    intro c p2 hp2
    dsimp only at hp2
    by_cases hpc : pc ≠ 0
    · rw [if_pos hpc] at hp2
      injection hp2 with hp2
      rcases hch with rfl | ⟨P, hP, hu2, ha2, hp3, hd2, hn2, hPid⟩
      · exact absurd rfl hpc
      · exact ⟨P, hP, hp2 ▸ hPid⟩
    · rw [if_neg hpc] at hp2
      cases hp2
  · rw [hcats]
    by_cases hpc : pc ≠ 0
    · rcases hch with rfl | ⟨P, hP, hu2, ha2, hPpar, hd2, hPne, hPid⟩
      · exact absurd rfl hpc
      · refine acyclic_modifyReparent _ _ hac hwf.1 (fun c => rfl)
          (fun c => by dsimp only; rw [if_pos hpc]) hkey ⟨P, hP, hPid, hPpar, hPid ▸ hPne⟩
    · exact acyclic_modify_noParent _ _ hac fun c => by dsimp only; rw [if_neg hpc]

theorem applyCategoryOps_wf : ∀ (ops : List CategoryOp) (s : AppState),
    CatWF s.categories → Acyclic s.categories →
    CatWF (applyCategoryOps s ops).categories ∧
      Acyclic (applyCategoryOps s ops).categories := by
  intro ops
  induction ops with
  | nil => exact fun s hwf hac => ⟨hwf, hac⟩
  | cons op ops ih =>
    intro s hwf hac
    rw [applyCategoryOps, List.foldl_cons]
    have hone : CatWF (applyCategoryOp s op).categories ∧
        Acyclic (applyCategoryOp s op).categories := by
      cases op with
      | create uid nm t i c pc =>
        cases hres : createCategory uid nm t i c pc s with
        | error e =>
          have hid : applyCategoryOp s (.create uid nm t i c pc) = s := by
            unfold applyCategoryOp
            dsimp only
            rw [hres]
            rfl
          rw [hid]
          exact ⟨hwf, hac⟩
        | ok s2 =>
          have hid : applyCategoryOp s (.create uid nm t i c pc) = s2 := by
            unfold applyCategoryOp
            dsimp only
            rw [hres]
            rfl
          rw [hid]
          exact createCategory_preserves hwf hac hres
      | edit uid catId nm t i c pc =>
        cases hres : editCategory uid catId nm t i c pc s with
        | error e =>
          have hid : applyCategoryOp s (.edit uid catId nm t i c pc) = s := by
            unfold applyCategoryOp
            dsimp only
            rw [hres]
            rfl
          rw [hid]
          exact ⟨hwf, hac⟩
        | ok s2 =>
          have hid : applyCategoryOp s (.edit uid catId nm t i c pc) = s2 := by
            unfold applyCategoryOp
            dsimp only
            rw [hres]
            rfl
          rw [hid]
          exact editCategory_preserves hwf hac hres
    exact ih _ hone.1 hone.2

/-- C8: under the schema integrity of the category table, reparenting a
category to itself or to one of its own descendants is rejected by the
edit-form parent validation (`ValidationError`) with the state left
unchanged, and after any sequence of category create/edit requests the
parent relation stays cycle-free. -/
theorem reparent_cycle_rejected_and_tree_stays_acyclic
    (uid catId pc : Nat) (nm ic co : String) (tt : TransactionType) (s : AppState)
    (hwf : CatWF s.categories)
    (hex : ∃ c ∈ s.categories,
      c.id = catId ∧ c.user_id = some uid ∧ c.is_system = false)
    (hbad : pc = catId ∨ Relation.TransGen (ParentStep s.categories) pc catId) :
    (editCategory uid catId nm tt ic co pc s = .error .validation ∧
      applyCategoryOp s (.edit uid catId nm tt ic co pc) = s) ∧
    ∀ ops : List CategoryOp, Acyclic s.categories →
      Acyclic (applyCategoryOps s ops).categories := by
  obtain ⟨hnd, hnz, hfk⟩ := hwf
  obtain ⟨c0, hc0, hcid, hcuser, hcsys⟩ := hex
  constructor
  · have hfind : s.categories.find? (catKey uid catId) = some c0 := by
      refine find?_eq_of_unique _ hc0 ?_ ?_
      · exact decide_eq_true ⟨hcid, hcuser⟩
      · intro y hy hky
        have hyid : y.id = catId := (of_decide_eq_true hky).1
        exact nodup_id_unique hnd hy hc0 (hyid.trans hcid.symm)
    have hnch : ¬ editParentChoice s uid catId pc := by
      intro hch
      rcases hch with rfl | ⟨c, hc, hu, ha, hpar, hd, hne, hid⟩
      · rcases hbad with hz | htg
        · exact hnz c0 hc0 (hcid.trans hz.symm)
        · obtain ⟨t, rec, hrec, hrid, hrpar⟩ := transGen_head_step htg
          exact hnz rec hrec hrid
      · rcases hbad with hz | htg
        · exact hne (hid.trans hz)
        · obtain ⟨t, rec, hrec, hrid, hrpar⟩ := transGen_head_step htg
          have he : rec = c := nodup_id_unique hnd hrec hc (hrid.trans hid.symm)
          rw [he, hpar] at hrpar
          cases hrpar
    have herr : editCategory uid catId nm tt ic co pc s = .error .validation := by
      unfold editCategory
      rw [hfind]
      dsimp only
      rw [if_neg (by rw [hcsys]; exact Bool.false_ne_true), if_pos hnch]
    refine ⟨herr, ?_⟩
    unfold applyCategoryOp
    dsimp only
    rw [herr]
    rfl
  · intro ops hac
    exact (applyCategoryOps_wf ops s ⟨hnd, hnz, hfk⟩ hac).2

/-- Concrete top-level category for the C8 witness. -/
def wCatTop : Category :=
  { id := 1, name := "Top", type := .expense, icon := "i", color := "c",
    user_id := some 7, parent_id := none, is_system := false, is_active := true }

/-- Concrete child of `wCatTop` for the C8 witness. -/
def wCatChild : Category :=
  { id := 2, name := "Child", type := .expense, icon := "i", color := "c",
    user_id := some 7, parent_id := some 1, is_system := false, is_active := true }

/-- Two-category state (a parent and its child) for the C8 witness. -/
def wStateC8 : AppState :=
  { accounts := [], categories := [wCatTop, wCatChild],
    transactions := [], transfers := [], budgets := [] }

theorem reparent_cycle_rejected_and_tree_stays_acyclic_witness :
    CatWF wStateC8.categories ∧
      (wCatTop.id = 1 ∧ wCatTop.user_id = some 7 ∧ wCatTop.is_system = false) ∧
      Relation.TransGen (ParentStep wStateC8.categories) 2 1 ∧
      (editCategory 7 1 "Top" .expense "i" "c" 2 wStateC8 = .error .validation ∧
        applyCategoryOp wStateC8 (.edit 7 1 "Top" .expense "i" "c" 2) = wStateC8) ∧
      Acyclic (applyCategoryOps wStateC8
        [.create 7 "New" .expense "i" "c" 1,
          .edit 7 2 "Child" .expense "i" "c" 0]).categories := by
  have hwf : CatWF wStateC8.categories := by decide
  have htg : Relation.TransGen (ParentStep wStateC8.categories) 2 1 :=
    Relation.TransGen.single ⟨wCatChild, by decide, rfl, rfl⟩
  have hac : Acyclic wStateC8.categories := by
    apply acyclic_of_decreasing
    rintro a b ⟨rec, hrec, hrid, hrpar⟩
    have hrec2 : rec ∈ [wCatTop, wCatChild] := hrec
    rcases List.mem_cons.mp hrec2 with rfl | hrec3
    · simp [wCatTop] at hrpar
    · rcases List.mem_cons.mp hrec3 with rfl | hrec4
      · simp [wCatChild] at hrid hrpar
        omega
      · cases hrec4
  have hmain := reparent_cycle_rejected_and_tree_stays_acyclic 7 1 2 "Top" "i" "c"
    .expense wStateC8 hwf ⟨wCatTop, by decide, rfl, rfl, rfl⟩ (Or.inr htg)
  exact ⟨hwf, ⟨rfl, rfl, rfl⟩, htg, hmain.1,
    hmain.2 [.create 7 "New" .expense "i" "c" 1, .edit 7 2 "Child" .expense "i" "c" 0] hac⟩

theorem sum_filter_or_disjoint {α : Type} (f : α → ℚ) (p1 p2 : α → Bool)
    (hdisj : ∀ x, ¬(p1 x = true ∧ p2 x = true)) :
    ∀ l : List α,
      ((l.filter fun x => p1 x || p2 x).map f).sum
        = ((l.filter p1).map f).sum + ((l.filter p2).map f).sum := by
  intro l
  induction l with
  | nil => simp
  | cons x xs ih =>
    by_cases h1 : p1 x = true
    · have h2 : p2 x = false := by
        cases h2v : p2 x
        · rfl
        · exact absurd ⟨h1, h2v⟩ (hdisj x)
      simp only [List.filter_cons, h1, h2, Bool.true_or, if_pos, List.map_cons,
        List.sum_cons, ih, Bool.false_eq_true, if_false, if_true]
      ring
    · rw [Bool.not_eq_true] at h1
      by_cases h2 : p2 x = true
      · simp only [List.filter_cons, h1, h2, Bool.false_or, List.map_cons,
          List.sum_cons, ih, Bool.false_eq_true, if_false, if_true]
        ring
      · rw [Bool.not_eq_true] at h2
        simp only [List.filter_cons, h1, h2, Bool.or_false, Bool.false_eq_true, if_false, ih]

theorem sum_group {α β : Type} [DecidableEq β] (f : α → ℚ) (key : α → β) (q : α → Bool) :
    ∀ ks : List β, ks.Nodup → ∀ l : List α,
      (ks.map fun k => ((l.filter fun x => q x && decide (key x = k)).map f).sum).sum
        = ((l.filter fun x => q x && decide (key x ∈ ks)).map f).sum := by
  intro ks
  induction ks with
  | nil =>
    intro _ l
    simp
  | cons k ks ih =>
    intro hnd l
    rw [List.nodup_cons] at hnd
    rw [List.map_cons, List.sum_cons, ih hnd.2]
    have hcong : ∀ x ∈ l, (q x && decide (key x ∈ k :: ks))
        = ((q x && decide (key x = k)) || (q x && decide (key x ∈ ks))) := by
      intro x _
      by_cases hq : q x = true
      · simp [hq, List.mem_cons]
      · rw [Bool.not_eq_true] at hq
        simp [hq]
    have hdisj : ∀ x, ¬((q x && decide (key x = k)) = true ∧
        (q x && decide (key x ∈ ks)) = true) := by
      rintro x ⟨h1, h2⟩
      rw [Bool.and_eq_true] at h1 h2
      have e1 : key x = k := of_decide_eq_true h1.2
      have e2 : key x ∈ ks := of_decide_eq_true h2.2
      exact hnd.1 (e1 ▸ e2)
    rw [List.filter_congr hcong, sum_filter_or_disjoint f _ _ hdisj l]

theorem sum_filterMap_nonempty {α : Type} (F : α → List Transaction)
    (amt : Transaction → ℚ) :
    ∀ A : List α,
      (((A.filterMap fun c =>
          if (F c).isEmpty then none else some (c, ((F c).map amt).sum)).map
        (fun r : α × ℚ => r.2)).sum)
        = (A.map fun c => ((F c).map amt).sum).sum := by
  intro A
  induction A with
  | nil => rfl
  | cons a A ih =>
    by_cases h : (F a).isEmpty = true
    · have he : F a = [] := List.isEmpty_iff.mp h
      simp only [List.filterMap_cons, he, List.isEmpty_nil, if_true, List.map_nil,
        List.sum_nil, zero_add, List.map_cons, List.sum_cons, ih]
    · rw [Bool.not_eq_true] at h
      simp only [List.filterMap_cons, h, Bool.false_eq_true, if_false, List.map_cons,
        List.sum_cons, ih]

theorem totalSpent_eq_filtered (uid : Nat) (dfrom dto : CalDate) (s : AppState)
    (hnd : (s.categories.map (·.id)).Nodup) :
    totalSpent uid dfrom dto s = filteredExpenseTotal uid dfrom dto s := by
  have hndA : (((s.categories.filter fun c => c.is_active).map (·.id))).Nodup :=
    hnd.sublist ((List.filter_sublist _).map _)
  have h1 : totalSpent uid dfrom dto s
      = ((s.categories.filter fun c => c.is_active).map fun c =>
          ((s.transactions.filter fun t =>
            decide (breakdownMatches uid dfrom dto c.id t)).map (·.amount)).sum).sum :=
    sum_filterMap_nonempty
      (fun c : Category =>
        s.transactions.filter fun t => decide (breakdownMatches uid dfrom dto c.id t))
      (·.amount) _
  have h2 : ∀ cid : Nat,
      (s.transactions.filter fun t => decide (breakdownMatches uid dfrom dto cid t))
        = s.transactions.filter fun t =>
            (decide (t.user_id = uid ∧ t.type = .expense ∧ inRange dfrom dto t.date) &&
              decide (t.category_id = cid)) := by
    intro cid
    apply List.filter_congr
    intro t _
    calc decide (breakdownMatches uid dfrom dto cid t)
        = decide ((t.user_id = uid ∧ t.type = .expense ∧ inRange dfrom dto t.date) ∧
            t.category_id = cid) :=
          decide_eq_decide.mpr
            ⟨fun ⟨a, b, c, d⟩ => ⟨⟨a, b, c⟩, d⟩, fun ⟨⟨a, b, c⟩, d⟩ => ⟨a, b, c, d⟩⟩
      _ = (decide (t.user_id = uid ∧ t.type = .expense ∧ inRange dfrom dto t.date) &&
            decide (t.category_id = cid)) := Bool.decide_and _ _
  have h3 : ((s.categories.filter fun c => c.is_active).map fun c =>
        ((s.transactions.filter fun t =>
          decide (breakdownMatches uid dfrom dto c.id t)).map (·.amount)).sum).sum
      = (((s.categories.filter fun c => c.is_active).map (·.id)).map fun k =>
          ((s.transactions.filter fun t =>
            (decide (t.user_id = uid ∧ t.type = .expense ∧ inRange dfrom dto t.date) &&
              decide (t.category_id = k))).map (·.amount)).sum).sum := by
    rw [List.map_map]
    apply congrArg List.sum
    apply List.map_congr_left
    intro c _
    dsimp only [Function.comp]
    rw [h2 c.id]
  have h4 := sum_group (·.amount) (·.category_id)
      (fun t => decide (t.user_id = uid ∧ t.type = .expense ∧ inRange dfrom dto t.date))
      ((s.categories.filter fun c => c.is_active).map (·.id)) hndA s.transactions
  have h5 : (s.transactions.filter fun t =>
        (decide (t.user_id = uid ∧ t.type = .expense ∧ inRange dfrom dto t.date) &&
          decide (t.category_id ∈ (s.categories.filter fun c => c.is_active).map (·.id))))
      = s.transactions.filter fun t =>
          decide (t.user_id = uid ∧ t.type = .expense ∧ inRange dfrom dto t.date ∧
            ∃ c ∈ s.categories, c.is_active = true ∧ c.id = t.category_id) := by
    apply List.filter_congr
    intro t _
    have hmem : (t.category_id ∈ (s.categories.filter fun c => c.is_active).map (·.id)) ↔
        ∃ c ∈ s.categories, c.is_active = true ∧ c.id = t.category_id := by
      simp [List.mem_map, List.mem_filter, and_assoc]
    calc (decide (t.user_id = uid ∧ t.type = .expense ∧ inRange dfrom dto t.date) &&
          decide (t.category_id ∈ (s.categories.filter fun c => c.is_active).map (·.id)))
        = decide ((t.user_id = uid ∧ t.type = .expense ∧ inRange dfrom dto t.date) ∧
            t.category_id ∈ (s.categories.filter fun c => c.is_active).map (·.id)) :=
          (Bool.decide_and _ _).symm
      _ = decide (t.user_id = uid ∧ t.type = .expense ∧ inRange dfrom dto t.date ∧
            ∃ c ∈ s.categories, c.is_active = true ∧ c.id = t.category_id) :=
          decide_eq_decide.mpr
            ⟨fun ⟨⟨a, b, c⟩, d⟩ => ⟨a, b, c, hmem.mp d⟩,
              fun ⟨a, b, c, d⟩ => ⟨⟨a, b, c⟩, hmem.mpr d⟩⟩
  rw [h1, h3, h4, h5]
  rfl

theorem roundHalfEven_zero : roundHalfEven 0 = 0 := by
  unfold roundHalfEven ratFloor
  norm_num

theorem round1_zero : round1 0 = 0 := by
  unfold round1
  rw [zero_mul, roundHalfEven_zero]
  norm_num

/-- C9: with unique category ids (the table's primary key), the
per-category expense breakdown measures every entry's percentage
against the filtered total of the requested date range — which equals
the independently-computed flat sum of the user's in-range expense
transactions — and when that filtered total is zero every entry's
percentage is exactly `0`, with no division ever evaluated. -/
theorem spending_breakdown_percentages_safe
    (uid : Nat) (dfrom dto : CalDate) (s : AppState)
    (hnd : (s.categories.map (·.id)).Nodup) :
    totalSpent uid dfrom dto s = filteredExpenseTotal uid dfrom dto s ∧
    (∀ e ∈ chart_data uid dfrom dto s,
      e.percentage = round1 (if 0 < filteredExpenseTotal uid dfrom dto s
        then e.value / filteredExpenseTotal uid dfrom dto s * 100 else 0)) ∧
    (filteredExpenseTotal uid dfrom dto s = 0 →
      ∀ e ∈ chart_data uid dfrom dto s, e.percentage = 0) := by
  have htot := totalSpent_eq_filtered uid dfrom dto s hnd
  refine ⟨htot, ?_, ?_⟩
  · intro e he
    obtain ⟨row, hrow, rfl⟩ := List.mem_map.mp he
    dsimp only
    rw [htot]
  · intro hz e he
    obtain ⟨row, hrow, rfl⟩ := List.mem_map.mp he
    dsimp only
    rw [htot, hz, if_neg (lt_irrefl (0 : ℚ))]
    exact round1_zero

theorem spending_breakdown_percentages_safe_witness :
    (wStateC8.categories.map (·.id)).Nodup ∧
      totalSpent 7 wDate wToday wStateC8 = filteredExpenseTotal 7 wDate wToday wStateC8 :=
  ⟨by decide, (spending_breakdown_percentages_safe 7 wDate wToday wStateC8 (by decide)).1⟩

end Emporium
